import Mathlib

/-!
Verification development for the `impactanalysis` repository.

The Python sources under `src/` are shallowly embedded below:

* `src/utils/parse_java.py`   — per-file extraction into the index
  (`parse_java_file`), including the `java.*` import filter, the
  create-if-absent entry initialisation and the call sequence numbering.
* `src/impactanalysis.py`     — `scan_directory_incremental`, the per-file
  fault handling around the worker futures.
* `src/diagrams/generate_class_diagram.py` — the relationship classifier
  and the edge-emission loops of `generate_class_diagram`, including its
  hard-coded placeholder values (`parent_class = ""`, the empty attribute
  and interface lists) exactly as they appear in the source.
* `src/diagrams/generate_diagrams.py` — the call/sequence view filtering,
  grouping and edge labelling of `generate_sequence_diagram`.
* `src/utils/config_utils.py` — `save_to_file` / `load_from_file` over a
  JSON model of the persisted snapshot (the `json` standard library is
  modelled for the JSON fragment the index uses: objects, arrays, strings,
  integers, booleans and null; no floats).

Python dicts are modelled as insertion-ordered association lists whose
assignment replaces in place on an existing key and appends otherwise.
Python sets of edges are modelled as insertion-ordered duplicate-free
lists (`setAdd`).  The worker pool of `scan_directory_incremental` is
modelled as a sequential fold in submission order: each task touches only
its own file's key, so the store contents and the error count do not
depend on the interleaving.
-/

namespace ImpactAnalysis

/-- Python `s.startswith(p)`: the pattern's characters are a prefix of the
string's characters (written over `List Char` so that it evaluates by
kernel reduction). -/
def strStartsWith (s p : String) : Bool :=
  p.data.isPrefixOf s.data

/-- Python `c in s` for a single-character needle (written over
`List Char` so that it evaluates by kernel reduction). -/
def strContainsChar (s : String) (c : Char) : Bool :=
  s.data.contains c

/-- Entry of the `methods` list built by `parse_java_file`
(keys `name`, `class`, `signature`, `return_type`). -/
structure MethodInfo where
  name : String
  className : String
  signature : String
  returnType : String
deriving DecidableEq, Repr

/-- Entry of the `call_graph` list built by `parse_java_file`
(keys `caller_class`, `caller_method`, `callee_class`, `callee_method`,
`sequence`). -/
structure CallInfo where
  callerClass : String
  callerMethod : String
  calleeClass : String
  calleeMethod : String
  sequence : Nat
deriving DecidableEq, Repr

/-- The per-file record stored under `index_data[file_path]`, as initialised
at `parse_java.py` line 31. -/
structure SourceFileRecord where
  classes : List String
  methods : List MethodInfo
  dependencies : List String
  callGraph : List CallInfo
  package : String
deriving DecidableEq, Repr

/-- The fresh record `{"classes": [], "methods": [], "dependencies": [],
"call_graph": [], "package": ""}` of `parse_java.py` line 31. -/
def emptyRecord : SourceFileRecord :=
  ⟨[], [], [], [], ""⟩

/-- The index (`index_data`): a Python dict from file path to record,
modelled as an insertion-ordered association list. -/
def Store : Type := List (String × SourceFileRecord)

instance : DecidableEq Store := by
  unfold Store; infer_instance

/-- Python dict lookup `index_data.get(k)`. -/
def lookupStore (k : String) : Store → Option SourceFileRecord
  | [] => none
  | (k', v) :: rest => if k' = k then some v else lookupStore k rest

/-- Python dict assignment `index_data[k] = v`: replaces in place when the
key is present, appends otherwise. -/
def insertStore (k : String) (v : SourceFileRecord) : Store → Store
  | [] => [(k, v)]
  | (k', v') :: rest =>
      if k' = k then (k, v) :: rest else (k', v') :: insertStore k v rest

/-- The record `parse_java_file` starts from for a path: the existing entry
when the path is already indexed, the fresh empty record otherwise
(`parse_java.py` lines 29–33). -/
def getEntry (k : String) (s : Store) : SourceFileRecord :=
  (lookupStore k s).getD emptyRecord

/-- A method invocation as found while walking the parse tree, before
`parse_java_file` assigns its `sequence` number (lines 69–100 of
`parse_java.py`; the caller/callee resolution against the syntax tree is
part of the external `javalang` walk). -/
structure RawCall where
  callerClass : String
  callerMethod : String
  calleeClass : String
  calleeMethod : String
deriving DecidableEq, Repr

/-- Everything the `javalang` tree walks of `parse_java_file` yield for one
successfully parsed file: the first package declaration (if any), the
declared classes, the methods with class context, the raw import paths and
the method invocations.  `javalang` is an external library, so these walks
are the abstraction boundary; the filtering and numbering applied to them
is modelled below in `mergeParsed`. -/
structure Extraction where
  pkg : Option String
  classes : List String
  methods : List MethodInfo
  imports : List String
  calls : List RawCall
deriving DecidableEq, Repr

/-- An extraction that yields nothing. -/
def emptyExtraction : Extraction :=
  ⟨none, [], [], [], []⟩

/-- Sequence numbering of appended calls: each appended call gets
`len(parsed_data["call_graph"]) + 1` at the moment it is appended
(`parse_java.py` line 101). -/
def numberCalls (start : Nat) : List RawCall → List CallInfo
  | [] => []
  | c :: cs =>
      ⟨c.callerClass, c.callerMethod, c.calleeClass, c.calleeMethod,
        start + 1⟩ :: numberCalls (start + 1) cs

/-- The body of `parse_java_file` after a successful parse (lines 29–106):
set the package from the first package declaration if one exists, append
the classes and methods, append the imports that do not start with
`"java."`, and append the calls with continuing sequence numbers. -/
def mergeParsed (old : SourceFileRecord) (e : Extraction) : SourceFileRecord :=
  { classes := old.classes ++ e.classes
    methods := old.methods ++ e.methods
    dependencies :=
      old.dependencies ++ e.imports.filter (fun i => ¬ strStartsWith i "java.")
    callGraph := old.callGraph ++ numberCalls old.callGraph.length e.calls
    package := match e.pkg with
      | some p => p
      | none => old.package }

/-- `parse_java_file(file_path, repo_path, index_data)` on a successful
parse: work on the existing entry (or a fresh one) and store the merged
result back under the same key. -/
def parseJavaFile (path : String) (e : Extraction) (s : Store) : Store :=
  insertStore path (mergeParsed (getEntry path s) e) s

/-- What can happen to one file's worker task.

* `parseFailure`: `javalang.parse.parse` raised — caught by the
  `try/except` at `parse_java.py` lines 22–27, which logs and returns
  normally without touching the index.
* `ok`: the parse succeeded and all tree walks completed.
* `raisedDuring`: the parse succeeded but an exception escaped during the
  extraction walks (lines 36–104).  By then the entry has already been
  created/aliased in the shared dict (lines 29–33), so whatever had been
  appended before the raise (`partial`) stays in the index, and the
  exception propagates to `future.result()` in the orchestrator. -/
inductive FileOutcome where
  | parseFailure (msg : String)
  | ok (e : Extraction)
  | raisedDuring (partialData : Extraction) (msg : String)
deriving DecidableEq, Repr

/-- One worker task of `scan_directory_incremental`: the resulting store
and the exception (if any) that reaches `future.result()`. -/
def runTask (path : String) (outcome : FileOutcome) (s : Store) :
    Store × Option String :=
  match outcome with
  | .parseFailure _ => (s, none)
  | .ok e => (parseJavaFile path e s, none)
  | .raisedDuring partialData msg => (parseJavaFile path partialData s, some msg)

/-- `scan_directory_incremental` over a list of files with prescribed
outcomes: fold the tasks over the shared index, collecting the
`(path, error)` pairs appended by the `except` clause at
`impactanalysis.py` lines 49–52. -/
def scanDirectoryIncremental (files : List (String × FileOutcome)) (init : Store) :
    Store × List (String × String) :=
  files.foldl
    (fun acc file =>
      let r := runTask file.1 file.2 acc.1
      (r.1, acc.2 ++ (match r.2 with
        | some e => [(file.1, e)]
        | none => [])))
    (init, [])

/-- A one-class extraction used to exercise re-indexing of one file. -/
def oneClassExtraction : Extraction :=
  ⟨some "p", ["A"], [], [], []⟩

/-- Ten files whose task raises during extraction for file #4 (the raise
happens after the entry has been created in the shared dict, so a partial
entry for `f4.java` remains). -/
def tenFilesRaiseAtFour : List (String × FileOutcome) :=
  [("f1.java", .ok oneClassExtraction),
   ("f2.java", .ok oneClassExtraction),
   ("f3.java", .ok oneClassExtraction),
   ("f4.java", .raisedDuring emptyExtraction "boom"),
   ("f5.java", .ok oneClassExtraction),
   ("f6.java", .ok oneClassExtraction),
   ("f7.java", .ok oneClassExtraction),
   ("f8.java", .ok oneClassExtraction),
   ("f9.java", .ok oneClassExtraction),
   ("f10.java", .ok oneClassExtraction)]

/-- Ten files where file #4 fails to parse (the failure is swallowed by the
`try/except` inside `parse_java_file`, so it never reaches the
orchestrator's error list). -/
def tenFilesParseFailAtFour : List (String × FileOutcome) :=
  [("f1.java", .ok oneClassExtraction),
   ("f2.java", .ok oneClassExtraction),
   ("f3.java", .ok oneClassExtraction),
   ("f4.java", .parseFailure "syntax error"),
   ("f5.java", .ok oneClassExtraction),
   ("f6.java", .ok oneClassExtraction),
   ("f7.java", .ok oneClassExtraction),
   ("f8.java", .ok oneClassExtraction),
   ("f9.java", .ok oneClassExtraction),
   ("f10.java", .ok oneClassExtraction)]

/-- The `excluded_patterns` prefix list shared by the diagram generators
(`generate_class_diagram.py` lines 65–69). -/
def excludedPatterns : List String :=
  ["java.", "javax.", "org.springframework", "junit", "org.junit",
   "org.assertj", "org.mockito", "org.slf4j", "lombok", "android.",
   "com.google.common"]

/-- `any(name.startswith(pattern) for pattern in excluded_patterns)`. -/
def isExcluded (name : String) : Bool :=
  excludedPatterns.any (fun p => strStartsWith name p)

/-- Qualified class identifier built at lines 83–86:
`package.className` when the package string is non-empty, else the bare
class name. -/
def fullClassName (pkg cls : String) : String :=
  if pkg ≠ "" then pkg ++ "." ++ cls else cls

/-- Python `set.add` on an insertion-ordered duplicate-free list. -/
def setAdd (l : List (String × String)) (e : String × String) :
    List (String × String) :=
  if l.contains e then l else l ++ [e]

/-- The mutable state of `generate_class_diagram`: the `processed_classes`
set and the four `relationships` edge sets (lines 53–62). -/
structure ClassDiagramState where
  processed : List String
  inheritance : List (String × String)
  composition : List (String × String)
  aggregation : List (String × String)
  association : List (String × String)
deriving DecidableEq, Repr

/-- Initial state: empty `processed_classes`, four empty edge sets. -/
def initialClassDiagramState : ClassDiagramState :=
  ⟨[], [], [], [], []⟩

/-- First pass of `generate_class_diagram` for one class (lines 75–218):
skip empty names, skip already-processed or excluded qualified names,
record the class as processed, then track inheritance.  The source sets
`parent_class = ""` (line 204, a hard-coded placeholder) and iterates the
implemented interfaces over the hard-coded empty list (line 213), both
kept literally here. -/
def firstPassClass (pkg cls : String) (st : ClassDiagramState) :
    ClassDiagramState :=
  if cls = "" then st
  else
    let full := fullClassName pkg cls
    if st.processed.contains full || isExcluded full then st
    else
      let st := { st with processed := st.processed ++ [full] }
      let parentClass := ""
      let st :=
        if parentClass ≠ "" ∧ parentClass ∉ ["Object", "java.lang.Object"] then
          let parentClass :=
            if ¬ strContainsChar parentClass '.' ∧ pkg ≠ "" then
              pkg ++ "." ++ parentClass
            else parentClass
          { st with inheritance := setAdd st.inheritance (full, parentClass) }
        else st
      ([] : List String).foldl
        (fun acc itf =>
          let itf :=
            if ¬ strContainsChar itf '.' ∧ pkg ≠ "" then
              pkg ++ "." ++ itf
            else itf
          { acc with inheritance := setAdd acc.inheritance (full, itf) })
        st

/-- Second pass of `generate_class_diagram` for one class (lines 224–293):
skip empty or excluded names and then walk the class's attributes.  The
attribute iterable is the hard-coded empty list `for attr in []`
(line 242, a placeholder), kept literally here, so the loop body — the
collection/array/final-field classification of lines 243–293 — is dead
code and never adds a composition, aggregation or association edge. -/
def secondPassClass (pkg cls : String) (st : ClassDiagramState) :
    ClassDiagramState :=
  if cls = "" then st
  else
    let full := fullClassName pkg cls
    if isExcluded full then st
    else
      ([] : List Unit).foldl (fun acc _ => acc) st

/-- The two whole-index passes of `generate_class_diagram` (lines 72 and
221): iterate the index entries in order, and each entry's class list in
order. -/
def classifyClassDiagram (store : Store) : ClassDiagramState :=
  let st := store.foldl
    (fun st entry =>
      entry.2.classes.foldl (fun st cls => firstPassClass entry.2.package cls st) st)
    initialClassDiagramState
  store.foldl
    (fun st entry =>
      entry.2.classes.foldl (fun st cls => secondPassClass entry.2.package cls st) st)
    st

/-- The association-edge cap `max_associations = 30` (line 337). -/
def maxAssociations : Nat := 30

/-- The capped association loop of lines 339–353: stop as soon as the
count reaches the cap, add an edge (and count it) only when both
endpoints were processed. -/
def addAssociationEdgesAux :
    List (String × String) → List String → Nat → List (String × String)
  | [], _, _ => []
  | (s, t) :: rest, processed, count =>
      if count ≥ maxAssociations then []
      else if processed.contains s && processed.contains t then
        (s, t) :: addAssociationEdgesAux rest processed (count + 1)
      else addAssociationEdgesAux rest processed count

/-- Association edges actually added to the class view
(`association_count` starts at 0, line 336). -/
def addAssociationEdges (pairs : List (String × String))
    (processed : List String) : List (String × String) :=
  addAssociationEdgesAux pairs processed 0

/-- The association edges of the generated class view for an index. -/
def classViewAssociationEdges (store : Store) : List (String × String) :=
  addAssociationEdges (classifyClassDiagram store).association
    (classifyClassDiagram store).processed

/-- The index of the C2 scenario: package `app` with classes `Order` and
`Customer` in two files.  (The index schema produced by
`parse_java_file` records no field information at all, and the diagram
code substitutes hard-coded empty placeholders for attributes.) -/
def orderScenarioStore : Store :=
  [("Order.java", ⟨["Order"], [], [], [], "app"⟩),
   ("Customer.java", ⟨["Customer"], [], [], [], "app"⟩)]

/-- The index of the C3 scenario: classes `Base` and `Derived` (the
source of `Derived` reads `extends Base implements Flag`, but the index
schema records neither parents nor interfaces). -/
def derivedScenarioStore : Store :=
  [("Base.java", ⟨["Base"], [], [], [], ""⟩),
   ("Derived.java", ⟨["Derived"], [], [], [], ""⟩)]

/-- Python `str.lower()` on one character, for the ASCII letters the
utility-method lookup compares against. -/
def lowerChar (c : Char) : Char :=
  if 65 ≤ c.toNat ∧ c.toNat ≤ 90 then Char.ofNat (c.toNat + 32) else c

/-- Python `method.lower()` (ASCII case folding; all members of the
utility set are ASCII). -/
def pyLower (s : String) : String :=
  ⟨s.data.map lowerChar⟩

/-- The `utility_methods` set of `generate_sequence_diagram`
(`generate_diagrams.py` lines 551–556); only membership tests are applied
to it. -/
def utilityMethods : List String :=
  ["save", "print", "ifPresent", "orElse", "forEach", "map",
   "equals", "toString", "hashCode", "get", "set", "is",
   "build", "of", "from", "clone", "compareTo", "builder",
   "add", "remove", "clear", "put", "create", "find"]

/-- The call filter of `generate_sequence_diagram`'s first pass
(`generate_diagrams.py` lines 566–586): a call is retained unless

* any of the four fields is empty (line 572),
* a class matches the exclusion prefixes, or the lower-cased callee
  *or caller* method name is in the utility set (lines 576–580), or
* it is a self-reference whose callee method starts with `get`/`set`/`is`
  or is in the utility set un-lowered (lines 583–585). -/
def retainCall (c : CallInfo) : Bool :=
  if c.callerClass = "" ∨ c.calleeClass = "" ∨
      c.callerMethod = "" ∨ c.calleeMethod = "" then false
  else if isExcluded c.callerClass || isExcluded c.calleeClass
      || utilityMethods.contains (pyLower c.calleeMethod)
      || utilityMethods.contains (pyLower c.callerMethod) then false
  else if c.callerClass = c.calleeClass ∧
      (strStartsWith c.calleeMethod "get" || strStartsWith c.calleeMethod "set"
        || strStartsWith c.calleeMethod "is"
        || utilityMethods.contains c.calleeMethod) = true then false
  else true

/-- All calls of the index, in iteration order
(`for file_data in index_data.values(): for call in
file_data.get("call_graph", [])`). -/
def allCalls (store : Store) : List CallInfo :=
  store.foldl (fun acc e => acc ++ e.2.callGraph) []

/-- The retained calls: those surviving the first-pass filter. -/
def retainedCalls (store : Store) : List CallInfo :=
  (allCalls store).filter retainCall

/-- Appending one call to `calls_by_relation[relation]`
(`generate_diagrams.py` lines 596–603), creating the entry on first
sight (Python dicts keep insertion order). -/
def addCallToRelation
    (acc : List ((String × String) × List (String × String)))
    (key : String × String) (v : String × String) :
    List ((String × String) × List (String × String)) :=
  match acc with
  | [] => [(key, [v])]
  | (k, vs) :: rest =>
      if k = key then (k, vs ++ [v]) :: rest
      else (k, vs) :: addCallToRelation rest key v

/-- The first pass over all calls: filter, then group the
`(caller_method, callee_method)` pairs by `(caller_class, callee_class)`. -/
def callsByRelation (calls : List CallInfo) :
    List ((String × String) × List (String × String)) :=
  calls.foldl
    (fun acc c =>
      if retainCall c then
        addCallToRelation acc (c.callerClass, c.calleeClass)
          (c.callerMethod, c.calleeMethod)
      else acc)
    []

/-- Association-list lookup into `calls_by_relation`. -/
def relationGet (key : String × String) :
    List ((String × String) × List (String × String)) →
    Option (List (String × String))
  | [] => none
  | (k, vs) :: rest => if k = key then some vs else relationGet key rest

/-- The edge-label computation of `generate_sequence_diagram`
(lines 631–638): slice the first `min(3, len(calls))` calls; if that
slice has length 1, label with `caller_method -> callee_method` of its
single element, otherwise label `"<n> calls"` with `n = len(calls)`. -/
def edgeLabel (calls : List (String × String)) : String :=
  let important := calls.take (min 3 calls.length)
  if important.length = 1 then
    (important.headD ("", "")).1 ++ " -> " ++ (important.headD ("", "")).2
  else
    Nat.repr calls.length ++ " calls"

/-- The edges of the call/sequence view (lines 626–652): one edge per
non-self `(caller, callee)` relation, carrying its label. -/
def sequenceEdges (store : Store) : List (String × String × String) :=
  (callsByRelation (allCalls store)).foldl
    (fun acc kv =>
      if kv.1.1 = kv.1.2 then acc
      else acc ++ [(kv.1.1, kv.1.2, edgeLabel kv.2)])
    []

/-- An index with two retained calls from class `Alpha` to class `Beta`. -/
def twoCallsStore : Store :=
  [("F.java",
    ⟨[], [], [],
      [⟨"Alpha", "main", "Beta", "work", 1⟩,
       ⟨"Alpha", "main", "Beta", "run", 2⟩], ""⟩)]

/-- A store whose single retained call goes from class `Gamma` to class
`Delta`. -/
def oneCallStore : Store :=
  [("G.java",
    ⟨[], [], [], [⟨"Gamma", "boot", "Delta", "init", 1⟩], ""⟩)]

mutual

/-- JSON values, as exchanged with the Python `json` standard library by
`save_to_file`/`load_from_file` for the fragment the index snapshot uses:
objects, arrays, strings, arbitrary-precision integers, booleans and
null (the snapshot contains no floats).  Objects keep their key order, as
Python dicts and `json.dump` do. -/
inductive Json where
  | null : Json
  | bool (b : Bool) : Json
  | num (n : Int) : Json
  | str (s : String) : Json
  | arr (items : JsonItems) : Json
  | obj (fields : JsonFields) : Json

/-- The item list of a JSON array. -/
inductive JsonItems where
  | nil : JsonItems
  | cons (hd : Json) (tl : JsonItems) : JsonItems

/-- The ordered key/value fields of a JSON object. -/
inductive JsonFields where
  | nil : JsonFields
  | cons (key : String) (val : Json) (tl : JsonFields) : JsonFields

end

/-- The indentation prefix `json.dump` emits with `indent=4` at nesting
level `lvl`. -/
def pad (lvl : Nat) : List Char :=
  List.replicate (4 * lvl) ' '

/-- Lower-case hexadecimal digit, as emitted by Python's
`'\\u{0:04x}'` escapes. -/
def hexDigitChar (n : Nat) : Char :=
  if n < 10 then Char.ofNat (48 + n) else Char.ofNat (87 + n)

/-- Four-digit lower-case hexadecimal rendering of `n < 0x10000`. -/
def hex4 (n : Nat) : List Char :=
  [hexDigitChar (n / 4096 % 16), hexDigitChar (n / 256 % 16),
   hexDigitChar (n / 16 % 16), hexDigitChar (n % 16)]

/-- Python `json`'s `ensure_ascii` escaping of one character: the
two-character shortcuts for quote, backslash and the common control
characters, `\\uXXXX` for other control or non-ASCII characters, a
surrogate pair for characters beyond the basic multilingual plane, and
the character itself for printable ASCII. -/
def escapeChar (c : Char) : List Char :=
  if c = '"' then ['\\', '"']
  else if c = '\\' then ['\\', '\\']
  else if c = '\n' then ['\\', 'n']
  else if c = '\t' then ['\\', 't']
  else if c = '\r' then ['\\', 'r']
  else if c.toNat = 8 then ['\\', 'b']
  else if c.toNat = 12 then ['\\', 'f']
  else if c.toNat < 32 then '\\' :: 'u' :: hex4 c.toNat
  else if c.toNat ≤ 126 then [c]
  else if c.toNat < 65536 then '\\' :: 'u' :: hex4 c.toNat
  else
    '\\' :: 'u' :: (hex4 (55296 + (c.toNat - 65536) / 1024) ++
      ('\\' :: 'u' :: hex4 (56320 + (c.toNat - 65536) % 1024)))

/-- Escape every character of a string body. -/
def escapeChars : List Char → List Char
  | [] => []
  | c :: cs => escapeChar c ++ escapeChars cs

/-- A JSON string literal: quote, escaped body, quote. -/
def escapeString (s : String) : List Char :=
  '"' :: (escapeChars s.data ++ ['"'])

/-- Decimal digits of a natural number, most significant first, as
Python's `repr` renders them (fuelled; `fuel = n + 1` always suffices). -/
def natDumpAux : Nat → Nat → List Char → List Char
  | 0, _, ds => ds
  | fuel + 1, n, ds =>
      if n / 10 = 0 then Char.ofNat (48 + n % 10) :: ds
      else natDumpAux fuel (n / 10) (Char.ofNat (48 + n % 10) :: ds)

/-- Decimal rendering of a natural number. -/
def natDump (n : Nat) : List Char :=
  natDumpAux (n + 1) n []

/-- Decimal rendering of an integer, as `json.dump` writes Python ints. -/
def intDump (i : Int) : List Char :=
  if i < 0 then '-' :: natDump (-i).toNat else natDump i.toNat

mutual

/-- `json.dump(value, f, indent=4)` rendered to characters at nesting
level `lvl`: with `indent=4` the item separator is `","` followed by a
newline and the next level's padding, the key separator is `": "`, and
empty containers print as `[]` / `\x7b\x7d` on one line. -/
def dumpVal (lvl : Nat) : Json → List Char
  | .null => "null".data
  | .bool true => "true".data
  | .bool false => "false".data
  | .num i => intDump i
  | .str s => escapeString s
  | .arr items =>
      match items with
      | .nil => ['[', ']']
      | .cons x xs =>
          '[' :: '\n' ::
            (dumpItems (lvl + 1) (.cons x xs) ++ ('\n' :: (pad lvl ++ [']'])))
  | .obj fields =>
      match fields with
      | .nil => ['{', '}']
      | .cons k v fs =>
          '{' :: '\n' ::
            (dumpFields (lvl + 1) (.cons k v fs) ++ ('\n' :: (pad lvl ++ ['}'])))

/-- Array items, each on its own padded line; the separator before every
item but the first is emitted by `dumpItemsRest`. -/
def dumpItems (lvl : Nat) : JsonItems → List Char
  | .nil => []
  | .cons x xs => pad lvl ++ (dumpVal lvl x ++ dumpItemsRest lvl xs)

/-- Second and later array items, each preceded by `","` and a newline. -/
def dumpItemsRest (lvl : Nat) : JsonItems → List Char
  | .nil => []
  | .cons x xs =>
      ',' :: '\n' :: (pad lvl ++ (dumpVal lvl x ++ dumpItemsRest lvl xs))

/-- Object fields, each on its own padded line as `"key": value`; the
separator before every field but the first is emitted by
`dumpFieldsRest`. -/
def dumpFields (lvl : Nat) : JsonFields → List Char
  | .nil => []
  | .cons k v fs =>
      pad lvl ++ (escapeString k ++ (':' :: ' ' :: (dumpVal lvl v ++ dumpFieldsRest lvl fs)))

/-- Second and later object fields, each preceded by `","` and a
newline. -/
def dumpFieldsRest (lvl : Nat) : JsonFields → List Char
  | .nil => []
  | .cons k v fs =>
      ',' :: '\n' ::
        (pad lvl ++ (escapeString k ++ (':' :: ' ' :: (dumpVal lvl v ++ dumpFieldsRest lvl fs))))

end

mutual

/-- Fuel sufficient for the recursive-descent parser on a value: one unit
per parser invocation. -/
def jsonFuel : Json → Nat
  | .null | .bool _ | .num _ | .str _ => 1
  | .arr items => 1 + itemsFuel items
  | .obj fields => 1 + fieldsFuel fields

/-- Fuel for parsing an item list. -/
def itemsFuel : JsonItems → Nat
  | .nil => 1
  | .cons x xs => 1 + jsonFuel x + itemsFuel xs

/-- Fuel for parsing a field list. -/
def fieldsFuel : JsonFields → Nat
  | .nil => 1
  | .cons _ v fs => 1 + jsonFuel v + fieldsFuel fs

end

/-- The whitespace skipped by Python's `json` scanner
(space, tab, newline, carriage return). -/
def skipWs : List Char → List Char
  | [] => []
  | c :: cs =>
      if c == ' ' || c == '\t' || c == '\n' || c == '\r' then skipWs cs
      else c :: cs

/-- Value of one hexadecimal digit (both cases accepted, as Python's
scanner does). -/
def hexDigitVal (c : Char) : Option Nat :=
  if 48 ≤ c.toNat ∧ c.toNat ≤ 57 then some (c.toNat - 48)
  else if 97 ≤ c.toNat ∧ c.toNat ≤ 102 then some (c.toNat - 87)
  else if 65 ≤ c.toNat ∧ c.toNat ≤ 70 then some (c.toNat - 55)
  else none

/-- Read exactly four hexadecimal digits. -/
def readHex4 : List Char → Option (Nat × List Char)
  | a :: b :: c :: d :: rest =>
      match hexDigitVal a, hexDigitVal b, hexDigitVal c, hexDigitVal d with
      | some x, some y, some z, some w =>
          some (x * 4096 + y * 256 + z * 16 + w, rest)
      | _, _, _, _ => none
  | _ => none

/-- Prepend a decoded character to a string-body parse result. -/
def consStr (c : Char) (r : Option (List Char × List Char)) :
    Option (List Char × List Char) :=
  r.map (fun p => (c :: p.1, p.2))

/-- The string-body scanner of Python's `json` (strict mode): characters
up to the closing quote, rejecting raw control characters, decoding the
two-character escapes and `\\uXXXX` (with surrogate-pair assembly; a lone
surrogate is rejected, as it has no scalar-value counterpart).  Fuelled;
one unit per decoded character, so `input length + 1` always suffices. -/
def parseStringBody : Nat → List Char → Option (List Char × List Char)
  | 0, _ => none
  | f + 1, cs =>
      match cs with
      | [] => none
      | c :: rest =>
          if c = '"' then some ([], rest)
          else if c = '\\' then
            match rest with
            | [] => none
            | e :: r =>
                if e = '"' then consStr '"' (parseStringBody f r)
                else if e = '\\' then consStr '\\' (parseStringBody f r)
                else if e = '/' then consStr '/' (parseStringBody f r)
                else if e = 'n' then consStr '\n' (parseStringBody f r)
                else if e = 't' then consStr '\t' (parseStringBody f r)
                else if e = 'r' then consStr '\r' (parseStringBody f r)
                else if e = 'b' then consStr (Char.ofNat 8) (parseStringBody f r)
                else if e = 'f' then consStr (Char.ofNat 12) (parseStringBody f r)
                else if e = 'u' then
                  match readHex4 r with
                  | none => none
                  | some (n, r2) =>
                      if 55296 ≤ n ∧ n < 56320 then
                        match r2 with
                        | '\\' :: 'u' :: r3 =>
                            match readHex4 r3 with
                            | none => none
                            | some (m, r4) =>
                                if 56320 ≤ m ∧ m < 57344 then
                                  consStr
                                    (Char.ofNat
                                      (65536 + (n - 55296) * 1024 + (m - 56320)))
                                    (parseStringBody f r4)
                                else none
                        | _ => none
                      else if 56320 ≤ n ∧ n < 57344 then none
                      else consStr (Char.ofNat n) (parseStringBody f r2)
                else none
          else if c.toNat < 32 then none
          else consStr c (parseStringBody f rest)

/-- Value of a decimal digit character. -/
def digitVal (c : Char) : Nat :=
  c.toNat - 48

/-- Consume a run of decimal digits, accumulating their value. -/
def parseNatAcc (acc : Nat) : List Char → Nat × List Char
  | [] => (acc, [])
  | c :: cs =>
      if c.isDigit then parseNatAcc (acc * 10 + digitVal c) cs else (acc, c :: cs)

/-- At least one decimal digit. -/
def parseNat1 : List Char → Option (Nat × List Char)
  | [] => none
  | c :: cs => if c.isDigit then some (parseNatAcc (digitVal c) cs) else none

/-- Integer literal: optional minus sign, then digits (the snapshot
fragment has no floats, so no fraction/exponent forms arise). -/
def parseNumber : List Char → Option (Int × List Char)
  | [] => none
  | c :: rest =>
      if c = '-' then (parseNat1 rest).map (fun r => (-(r.1 : Int), r.2))
      else (parseNat1 (c :: rest)).map (fun r => ((r.1 : Int), r.2))

/-- Skip whitespace and read the next character together with what
follows it. -/
def punct (cs : List Char) : Option (Char × List Char) :=
  match skipWs cs with
  | [] => none
  | c :: t => some (c, t)

mutual

/-- The recursive-descent value parser modelling Python's `json.load` on
the snapshot fragment: skip whitespace, dispatch on the first character
(object, array, string, `null`/`true`/`false`, number).  Fuelled with one
unit per parser invocation. -/
def parseVal : Nat → List Char → Option (Json × List Char)
  | 0, _ => none
  | f + 1, cs =>
      (punct cs).bind (fun cr =>
        if cr.1 = '{' then
          (punct cr.2).bind (fun c2 =>
            if c2.1 = '}' then some (Json.obj JsonFields.nil, c2.2)
            else (parseMembers f (c2.1 :: c2.2)).map (fun p => (Json.obj p.1, p.2)))
        else if cr.1 = '[' then
          (punct cr.2).bind (fun c2 =>
            if c2.1 = ']' then some (Json.arr JsonItems.nil, c2.2)
            else (parseItems f (c2.1 :: c2.2)).map (fun p => (Json.arr p.1, p.2)))
        else if cr.1 = '"' then
          (parseStringBody (cr.2.length + 1) cr.2).map
            (fun p => (Json.str (String.mk p.1), p.2))
        else if cr.1 = 'n' then
          match cr.2 with
          | 'u' :: 'l' :: 'l' :: r2 => some (Json.null, r2)
          | _ => none
        else if cr.1 = 't' then
          match cr.2 with
          | 'r' :: 'u' :: 'e' :: r2 => some (Json.bool true, r2)
          | _ => none
        else if cr.1 = 'f' then
          match cr.2 with
          | 'a' :: 'l' :: 's' :: 'e' :: r2 => some (Json.bool false, r2)
          | _ => none
        else
          (parseNumber (cr.1 :: cr.2)).map (fun p => (Json.num p.1, p.2)))

/-- One or more comma-separated array items, then the closing bracket. -/
def parseItems : Nat → List Char → Option (JsonItems × List Char)
  | 0, _ => none
  | f + 1, cs =>
      (parseVal f cs).bind (fun vr =>
        (punct vr.2).bind (fun cr =>
          if cr.1 = ',' then
            (parseItems f cr.2).map (fun xr => (JsonItems.cons vr.1 xr.1, xr.2))
          else if cr.1 = ']' then some (JsonItems.cons vr.1 JsonItems.nil, cr.2)
          else none))

/-- One or more comma-separated `"key": value` members, then the closing
brace. -/
def parseMembers : Nat → List Char → Option (JsonFields × List Char)
  | 0, _ => none
  | f + 1, cs =>
      (punct cs).bind (fun cr =>
        if cr.1 = '"' then
          (parseStringBody (cr.2.length + 1) cr.2).bind (fun kr =>
            (punct kr.2).bind (fun c2 =>
              if c2.1 = ':' then
                (parseVal f c2.2).bind (fun vr =>
                  (punct vr.2).bind (fun c3 =>
                    if c3.1 = ',' then
                      (parseMembers f c3.2).map
                        (fun fr => (JsonFields.cons (String.mk kr.1) vr.1 fr.1, fr.2))
                    else if c3.1 = '}' then
                      some (JsonFields.cons (String.mk kr.1) vr.1 JsonFields.nil, c3.2)
                    else none))
              else none))
        else none)

end

/-- `json.load` on raw characters: parse one value with ample fuel and
require only trailing whitespace after it. -/
def loads (cs : List Char) : Option Json :=
  match parseVal (cs.length + 1) cs with
  | some (j, rest) => if skipWs rest = [] then some j else none
  | none => none

/-- A parse position at which a just-parsed number cannot be extended:
the remaining input does not begin with a decimal digit. -/
def nonDigitStart : List Char → Prop
  | [] => True
  | c :: _ => c.isDigit = false

/-- An item list from a Lean list of values. -/
def itemsOfList : List Json → JsonItems
  | [] => .nil
  | j :: js => .cons j (itemsOfList js)

/-- The JSON object `parse_java_file` appends to `parsed_data["methods"]`
(keys `name`, `class`, `signature`, `return_type`, in insertion order,
`parse_java.py` lines 54–59). -/
def methodToJson (m : MethodInfo) : Json :=
  Json.obj (.cons "name" (.str m.name)
    (.cons "class" (.str m.className)
      (.cons "signature" (.str m.signature)
        (.cons "return_type" (.str m.returnType) .nil))))

/-- The JSON object `parse_java_file` appends to
`parsed_data["call_graph"]` (keys `caller_class`, `caller_method`,
`callee_class`, `callee_method`, `sequence`, in insertion order,
`parse_java.py` lines 96–102). -/
def callToJson (c : CallInfo) : Json :=
  Json.obj (.cons "caller_class" (.str c.callerClass)
    (.cons "caller_method" (.str c.callerMethod)
      (.cons "callee_class" (.str c.calleeClass)
        (.cons "callee_method" (.str c.calleeMethod)
          (.cons "sequence" (.num (c.sequence : Int)) .nil)))))

/-- The JSON object stored under a file path (key insertion order fixed by
the initialiser at `parse_java.py` line 31: `classes`, `methods`,
`dependencies`, `call_graph`, `package`). -/
def recordToJson (r : SourceFileRecord) : Json :=
  Json.obj (.cons "classes" (.arr (itemsOfList (r.classes.map Json.str)))
    (.cons "methods" (.arr (itemsOfList (r.methods.map methodToJson)))
      (.cons "dependencies" (.arr (itemsOfList (r.dependencies.map Json.str)))
        (.cons "call_graph" (.arr (itemsOfList (r.callGraph.map callToJson)))
          (.cons "package" (.str r.package) .nil)))))

/-- The fields of the top-level snapshot object, one per indexed path, in
store order (Python dicts preserve insertion order, `json.dump` writes
keys in that order). -/
def storeFields : Store → JsonFields
  | [] => .nil
  | (path, r) :: rest => .cons path (recordToJson r) (storeFields rest)

/-- The whole snapshot as a JSON value. -/
def storeToJson (s : Store) : Json := Json.obj (storeFields s)

/-- The exact characters `save_to_file` writes for a store
(`config_utils.py` line 48: `json.dump(data, f, indent=4)`). -/
def saveContents (s : Store) : List Char := dumpVal 0 (storeToJson s)

/-- What the filesystem holds at the snapshot path when `load_from_file`
runs: nothing, or a file with the given contents. -/
inductive FileState where
  | missing : FileState
  | present (contents : List Char) : FileState

/-- The level of a `logging` call made by `load_from_file`. -/
inductive LogLevel where
  | warning : LogLevel
  | error : LogLevel
deriving DecidableEq, Repr

/-- Result of `load_from_file`: the returned value and the log lines
emitted, in order.  (For a malformed file the Python message carries the
rendered `JSONDecodeError` after the path; the model keeps the fixed
message text up to the path.) -/
structure LoadResult where
  value : Json
  logs : List (LogLevel × String)

/-- `config_utils.load_from_file` (lines 7–35): a missing file logs a
warning, creates an empty index file and returns `\x7b\x7d`; a present file is
parsed with `json.load`, and on `JSONDecodeError` the except arm logs at
error level and returns `\x7b\x7d`; a successful parse returns the parsed value
with no log. -/
def loadFromFile (path : String) (fs : FileState) : LoadResult :=
  match fs with
  | .missing =>
      ⟨Json.obj .nil,
        [(LogLevel.warning,
          "File " ++ path ++ " not found. Creating an empty index file.")]⟩
  | .present contents =>
      match loads contents with
      | some j => ⟨j, []⟩
      | none =>
          ⟨Json.obj .nil, [(LogLevel.error, "Error loading file " ++ path)]⟩

/-- A one-file store exercising every record field. -/
def sampleStore : Store :=
  [("src/A.java",
    ⟨["A"], [⟨"run", "A", "run(Customer)", "void"⟩],
     ["com.example.Dep"], [⟨"A", "run", "B", "go", 1⟩], "app"⟩)]

theorem lookupStore_insertStore_self (k : String) (v : SourceFileRecord) :
    ∀ s : Store, lookupStore k (insertStore k v s) = some v := by
  intro s
  induction s with
  | nil => simp [insertStore, lookupStore]
  | cons hd tl ih =>
      by_cases h : hd.1 = k
      · simp [insertStore, lookupStore, h]
      · simp [insertStore, lookupStore, h, ih]

theorem getEntry_parseJavaFile (path : String) (e : Extraction) (s : Store) :
    getEntry path (parseJavaFile path e s) = mergeParsed (getEntry path s) e := by
  simp [parseJavaFile, getEntry, lookupStore_insertStore_self]

/-- C1 counterexample: re-indexing the very same unchanged file a second
time does *not* yield the entry produced by indexing it once — on a file
declaring a single class `A`, the second `parse_java_file` run appends to
the existing entry (its `classes` list becomes `["A", "A"]`), so the merge
is additive, not replace-by-key. -/
theorem claim1_counterexample :
    parseJavaFile "A.java" oneClassExtraction
        (parseJavaFile "A.java" oneClassExtraction ([] : Store)) ≠
      parseJavaFile "A.java" oneClassExtraction ([] : Store) := by
  decide

/-- C1 (amended): re-indexing the same unchanged file merges additively,
not by replacement: after a second `parse_java_file` run on the same path
and contents, the index entry is the once-indexed entry with the
extraction's classes, methods, filtered imports and (re-numbered) calls
appended once more; only the `package` field is overwritten. -/
theorem claim1_amended (s : Store) (path : String) (e : Extraction) :
    getEntry path (parseJavaFile path e (parseJavaFile path e s)) =
      mergeParsed (mergeParsed (getEntry path s) e) e := by
  rw [getEntry_parseJavaFile, getEntry_parseJavaFile]

/-- C4 evaluated on the failing input: with 10 files where file #4's task
raises during extraction, the aggregate error list does record exactly one
`(path, error)` pair, but the final index holds 10 entries (a partial
entry for file #4 remains), not the 9 the claim states; and when file #4
instead fails at parse time, the index holds 9 entries but the aggregate
error list is empty, again contradicting the claim's "exactly one recorded
failure".  In both runs no exception escapes the scan. -/
theorem claim4_code_eval :
    ((scanDirectoryIncremental tenFilesRaiseAtFour []).1.length = 10 ∧
      (scanDirectoryIncremental tenFilesRaiseAtFour []).2 =
        [("f4.java", "boom")]) ∧
    ((scanDirectoryIncremental tenFilesParseFailAtFour []).1.length = 9 ∧
      (scanDirectoryIncremental tenFilesParseFailAtFour []).2 = []) := by
  decide

theorem firstPassClass_edges (pkg cls : String) (st : ClassDiagramState) :
    (firstPassClass pkg cls st).inheritance = st.inheritance ∧
    (firstPassClass pkg cls st).composition = st.composition ∧
    (firstPassClass pkg cls st).aggregation = st.aggregation ∧
    (firstPassClass pkg cls st).association = st.association := by
  by_cases h1 : cls = ""
  · simp [firstPassClass, h1]
  · simp [firstPassClass, h1]
    split <;> exact ⟨rfl, rfl, rfl, rfl⟩

theorem secondPassClass_eq (pkg cls : String) (st : ClassDiagramState) :
    secondPassClass pkg cls st = st := by
  simp [secondPassClass]

theorem foldl_firstPassClass_edges (pkg : String) (classes : List String) :
    ∀ st : ClassDiagramState,
      ((classes.foldl (fun st cls => firstPassClass pkg cls st) st).inheritance
          = st.inheritance) ∧
      ((classes.foldl (fun st cls => firstPassClass pkg cls st) st).composition
          = st.composition) ∧
      ((classes.foldl (fun st cls => firstPassClass pkg cls st) st).aggregation
          = st.aggregation) ∧
      ((classes.foldl (fun st cls => firstPassClass pkg cls st) st).association
          = st.association) := by
  induction classes with
  | nil => intro st; exact ⟨rfl, rfl, rfl, rfl⟩
  | cons c cs ih =>
      intro st
      simp only [List.foldl_cons]
      obtain ⟨h1, h2, h3, h4⟩ := ih (firstPassClass pkg c st)
      obtain ⟨g1, g2, g3, g4⟩ := firstPassClass_edges pkg c st
      exact ⟨h1.trans g1, h2.trans g2, h3.trans g3, h4.trans g4⟩

theorem firstPassStore_edges (store : Store) :
    ∀ st : ClassDiagramState,
      ((store.foldl
          (fun st entry => entry.2.classes.foldl
            (fun st cls => firstPassClass entry.2.package cls st) st)
          st).inheritance = st.inheritance) ∧
      ((store.foldl
          (fun st entry => entry.2.classes.foldl
            (fun st cls => firstPassClass entry.2.package cls st) st)
          st).composition = st.composition) ∧
      ((store.foldl
          (fun st entry => entry.2.classes.foldl
            (fun st cls => firstPassClass entry.2.package cls st) st)
          st).aggregation = st.aggregation) ∧
      ((store.foldl
          (fun st entry => entry.2.classes.foldl
            (fun st cls => firstPassClass entry.2.package cls st) st)
          st).association = st.association) := by
  induction store with
  | nil => intro st; exact ⟨rfl, rfl, rfl, rfl⟩
  | cons e es ih =>
      intro st
      simp only [List.foldl_cons]
      obtain ⟨h1, h2, h3, h4⟩ :=
        ih (e.2.classes.foldl (fun st cls => firstPassClass e.2.package cls st) st)
      obtain ⟨g1, g2, g3, g4⟩ := foldl_firstPassClass_edges e.2.package e.2.classes st
      exact ⟨h1.trans g1, h2.trans g2, h3.trans g3, h4.trans g4⟩

theorem foldl_secondPassClass_eq (pkg : String) (classes : List String) :
    ∀ st : ClassDiagramState,
      classes.foldl (fun st cls => secondPassClass pkg cls st) st = st := by
  induction classes with
  | nil => intro st; rfl
  | cons c cs ih =>
      intro st
      simp only [List.foldl_cons]
      rw [secondPassClass_eq]
      exact ih st

theorem secondPassStore_eq (store : Store) :
    ∀ st : ClassDiagramState,
      store.foldl
        (fun st entry => entry.2.classes.foldl
          (fun st cls => secondPassClass entry.2.package cls st) st)
        st = st := by
  induction store with
  | nil => intro st; rfl
  | cons e es ih =>
      intro st
      simp only [List.foldl_cons]
      rw [foldl_secondPassClass_eq]
      exact ih st

theorem classify_edges_empty (store : Store) :
    (classifyClassDiagram store).inheritance = [] ∧
    (classifyClassDiagram store).composition = [] ∧
    (classifyClassDiagram store).aggregation = [] ∧
    (classifyClassDiagram store).association = [] := by
  unfold classifyClassDiagram
  rw [secondPassStore_eq]
  exact firstPassStore_edges store initialClassDiagramState

/-- C7: none of the four relationship edge sets produced by the
classification of `generate_class_diagram` contains a self-edge `(X, X)`
— for every index.  (In this code base the property holds because the
classifier's attribute, parent-class and interface inputs are hard-coded
empty placeholders, so all four edge sets are empty.) -/
theorem claim7_no_self_edges : ∀ store : Store,
    ((classifyClassDiagram store).inheritance.all fun e => e.1 != e.2) = true ∧
    ((classifyClassDiagram store).composition.all fun e => e.1 != e.2) = true ∧
    ((classifyClassDiagram store).aggregation.all fun e => e.1 != e.2) = true ∧
    ((classifyClassDiagram store).association.all fun e => e.1 != e.2) = true := by
  intro store
  obtain ⟨h1, h2, h3, h4⟩ := classify_edges_empty store
  rw [h1, h2, h3, h4]
  exact ⟨rfl, rfl, rfl, rfl⟩

/-- C2 evaluated on the scenario input: both classes are processed, yet
classification emits **no** edges of any kind — not the expected
`association(app.Order, app.Customer)`, `composition(app.Order,
app.OrderId)` and `aggregation(app.Order, app.Item)` — because the
attribute extraction feeding the field classifier is a hard-coded empty
placeholder. -/
theorem claim2_code_eval :
    (classifyClassDiagram orderScenarioStore).processed =
        ["app.Order", "app.Customer"] ∧
    (classifyClassDiagram orderScenarioStore).association = [] ∧
    (classifyClassDiagram orderScenarioStore).composition = [] ∧
    (classifyClassDiagram orderScenarioStore).aggregation = [] ∧
    (classifyClassDiagram orderScenarioStore).inheritance = [] := by
  decide

/-- C3 evaluated on the scenario input: both classes are processed, yet
zero inheritance edges are emitted — not the expected `(Derived, Base)`
and `(Derived, Flag)` — because `generate_class_diagram` hard-codes
`parent_class = ""` and iterates the implemented interfaces over the
empty placeholder list. -/
theorem claim3_code_eval :
    (classifyClassDiagram derivedScenarioStore).processed =
        ["Base", "Derived"] ∧
    (classifyClassDiagram derivedScenarioStore).inheritance = [] := by
  decide

theorem addAssociationEdgesAux_length :
    ∀ (pairs : List (String × String)) (processed : List String) (count : Nat),
      (addAssociationEdgesAux pairs processed count).length ≤
        maxAssociations - count := by
  intro pairs
  induction pairs with
  | nil => intro processed count; simp [addAssociationEdgesAux]
  | cons p rest ih =>
      intro processed count
      obtain ⟨s, t⟩ := p
      simp only [addAssociationEdgesAux]
      split
      · simp
      · rename_i hc
        split
        · have := ih processed (count + 1)
          simp only [List.length_cons]
          omega
        · have := ih processed count
          omega

theorem addAssociationEdgesAux_cap_stable :
    ∀ (pairs extra : List (String × String)) (processed : List String)
      (count : Nat),
      (addAssociationEdgesAux pairs processed count).length =
          maxAssociations - count →
      count ≤ maxAssociations →
      addAssociationEdgesAux (pairs ++ extra) processed count =
        addAssociationEdgesAux pairs processed count := by
  intro pairs
  induction pairs with
  | nil =>
      intro extra processed count h hle
      have hc : count = maxAssociations := by
        simp [addAssociationEdgesAux] at h
        omega
      subst hc
      cases extra with
      | nil => rfl
      | cons e rest =>
          obtain ⟨s, t⟩ := e
          simp [addAssociationEdgesAux]
  | cons p rest ih =>
      intro extra processed count h hle
      obtain ⟨s, t⟩ := p
      by_cases hc : count ≥ maxAssociations
      · simp [addAssociationEdgesAux, hc]
      · by_cases hmem : (processed.contains s && processed.contains t) = true
        · simp only [addAssociationEdgesAux, List.cons_append, if_neg hc,
            if_pos hmem, List.length_cons] at h ⊢
          have h' : (addAssociationEdgesAux rest processed (count + 1)).length =
              maxAssociations - (count + 1) := by omega
          exact congrArg (List.cons (s, t))
            (ih extra processed (count + 1) h' (by omega))
        · simp only [addAssociationEdgesAux, List.cons_append, if_neg hc,
            if_neg hmem] at h ⊢
          exact ih extra processed count h hle

/-- C5: the class view's association edges are capped — for every index
the view adds at most `max_associations = 30` association edges; the cap
bound holds for any candidate edge list fed to the capped loop; and once
the cap has been reached, any further candidate association edges are
omitted without changing the view. -/
theorem claim5_association_cap :
    (∀ store : Store,
        (classViewAssociationEdges store).length ≤ maxAssociations) ∧
    (∀ (pairs : List (String × String)) (processed : List String),
        (addAssociationEdges pairs processed).length ≤ maxAssociations) ∧
    (∀ (pairs extra : List (String × String)) (processed : List String),
        (addAssociationEdges pairs processed).length = maxAssociations →
        addAssociationEdges (pairs ++ extra) processed =
          addAssociationEdges pairs processed) := by
  refine ⟨?_, ?_, ?_⟩
  · intro store
    have := addAssociationEdgesAux_length
      (classifyClassDiagram store).association
      (classifyClassDiagram store).processed 0
    simpa [classViewAssociationEdges, addAssociationEdges] using this
  · intro pairs processed
    have := addAssociationEdgesAux_length pairs processed 0
    simpa [addAssociationEdges] using this
  · intro pairs extra processed h
    exact addAssociationEdgesAux_cap_stable pairs extra processed 0
      (by simpa [addAssociationEdges] using h) (by omega)

/-- Witness for C5: thirty association edges between processed classes
reach the cap, and a 31st candidate edge (also between processed classes)
is omitted without changing the view's association edges. -/
theorem claim5_association_cap_witness :
    addAssociationEdges
        (List.replicate 30 ("a", "b") ++ [("b", "a")]) ["a", "b"] =
      addAssociationEdges (List.replicate 30 ("a", "b")) ["a", "b"] :=
  claim5_association_cap.2.2 (List.replicate 30 ("a", "b")) [("b", "a")]
    ["a", "b"] (by decide)

theorem sequenceEdges_foldl_eq
    (l : List ((String × String) × List (String × String))) :
    ∀ acc : List (String × String × String),
      l.foldl
        (fun acc kv =>
          if kv.1.1 = kv.1.2 then acc
          else acc ++ [(kv.1.1, kv.1.2, edgeLabel kv.2)])
        acc =
      acc ++ l.filterMap
        (fun kv =>
          if kv.1.1 = kv.1.2 then none
          else some (kv.1.1, kv.1.2, edgeLabel kv.2)) := by
  induction l with
  | nil => intro acc; simp
  | cons kv rest ih =>
      intro acc
      by_cases h : kv.1.1 = kv.1.2
      · simp only [List.foldl_cons, List.filterMap_cons, if_pos h, ih]
      · simp only [List.foldl_cons, List.filterMap_cons, if_neg h, ih,
          List.append_assoc, List.singleton_append]

theorem relationGet_mem (key : String × String)
    (vs : List (String × String)) :
    ∀ l : List ((String × String) × List (String × String)),
      relationGet key l = some vs → (key, vs) ∈ l := by
  intro l
  induction l with
  | nil => intro h; simp [relationGet] at h
  | cons kv rest ih =>
      obtain ⟨k1, v1⟩ := kv
      intro h
      rw [relationGet] at h
      by_cases hk : k1 = key
      · rw [if_pos hk, Option.some_inj] at h
        subst hk
        subst h
        exact List.mem_cons_self _ _
      · rw [if_neg hk] at h
        exact List.mem_cons_of_mem _ (ih h)

/-- C8 counterexample: a class pair with two retained calls — within the
claimed "first 3 representative labels" budget — is *not* labelled with
the individual calls: the only edge of the view carries the summary label
`"2 calls"`, which is neither `"main -> work"` nor `"main -> run"`.  The
slice of the first three calls is computed but only its length is
consulted, and any pair with two or more calls falls into the count
branch. -/
theorem claim8_counterexample :
    sequenceEdges twoCallsStore = [("Alpha", "Beta", "2 calls")] ∧
    callsByRelation (allCalls twoCallsStore) =
      [(("Alpha", "Beta"), [("main", "work"), ("main", "run")])] ∧
    "2 calls" ≠ "main" ++ " -> " ++ "work" ∧
    "2 calls" ≠ "main" ++ " -> " ++ "run" := by
  decide

/-- C8 (amended): in the call/sequence view, a class pair with *exactly
one* retained call is labelled with that call
(`caller_method -> callee_method`); every pair with **two or more**
retained calls is summarised as the count label `"<n> calls"` —
representative call labels are never shown for multiple calls. -/
theorem claim8_amended (store : Store) (caller callee : String)
    (calls : List (String × String))
    (h : relationGet (caller, callee) (callsByRelation (allCalls store)) =
      some calls)
    (hne : caller ≠ callee) :
    (∀ m, calls = [m] →
      (caller, callee, m.1 ++ " -> " ++ m.2) ∈ sequenceEdges store) ∧
    (2 ≤ calls.length →
      (caller, callee, Nat.repr calls.length ++ " calls") ∈
        sequenceEdges store) := by
  have hmem : ((caller, callee), calls) ∈ callsByRelation (allCalls store) :=
    relationGet_mem _ _ _ h
  have hedge : ∀ label, edgeLabel calls = label →
      (caller, callee, label) ∈ sequenceEdges store := by
    intro label hlabel
    unfold sequenceEdges
    rw [sequenceEdges_foldl_eq]
    simp only [List.nil_append]
    refine List.mem_filterMap.mpr ⟨((caller, callee), calls), hmem, ?_⟩
    rw [if_neg hne, hlabel]
  constructor
  · rintro m rfl
    refine hedge _ ?_
    unfold edgeLabel
    rfl
  · intro h2
    refine hedge _ ?_
    unfold edgeLabel
    have hlen : (calls.take (min 3 calls.length)).length = min 3 calls.length := by
      simp [List.length_take]
    rw [if_neg]
    rw [hlen]
    omega

/-- Witness for C8 (amended), one instance per branch: the single-call
pair of `oneCallStore` is labelled `"boot -> init"`, and the two-call
pair of `twoCallsStore` gets the summary edge
`("Alpha", "Beta", "2 calls")`. -/
theorem claim8_amended_witness :
    ("Gamma", "Delta", "boot -> init") ∈ sequenceEdges oneCallStore ∧
    ("Alpha", "Beta", "2 calls") ∈ sequenceEdges twoCallsStore :=
  ⟨(claim8_amended oneCallStore "Gamma" "Delta" [("boot", "init")]
      (by decide) (by decide)).1 ("boot", "init") rfl,
   (claim8_amended twoCallsStore "Alpha" "Beta"
      [("main", "work"), ("main", "run")] (by decide) (by decide)).2
      (by decide)⟩

/-- C10: the call/sequence view also drops a call when the *caller*
method name, lower-cased, is in the utility/noise set; such a call is
never retained, for any index it occurs in, regardless of its other
fields. -/
theorem claim10_caller_filter (store : Store) (c : CallInfo)
    (h : utilityMethods.contains (pyLower c.callerMethod) = true) :
    retainCall c = false ∧ c ∉ retainedCalls store := by
  have hfalse : retainCall c = false := by
    have h' : pyLower c.callerMethod ∈ utilityMethods := by
      simpa using h
    have hd : (isExcluded c.callerClass || isExcluded c.calleeClass
        || utilityMethods.contains (pyLower c.calleeMethod)
        || utilityMethods.contains (pyLower c.callerMethod)) = true := by
      simp [h']
    unfold retainCall
    split
    · rfl
    · simp [hd]
  refine ⟨hfalse, fun hmem => ?_⟩
  have := (List.mem_filter.mp hmem).2
  rw [hfalse] at this
  exact Bool.false_ne_true this

theorem char_valid_ranges (c : Char) :
    c.toNat < 55296 ∨ (57344 ≤ c.toNat ∧ c.toNat < 1114112) := by
  have h := c.valid
  simp only [UInt32.isValidChar, Nat.isValidChar] at h
  exact h

theorem hexDigitVal_hexDigitChar {n : Nat} (h : n < 16) :
    hexDigitVal (hexDigitChar n) = some n := by
  interval_cases n <;> decide

theorem readHex4_hex4 {n : Nat} (h : n < 65536) (rest : List Char) :
    readHex4 (hex4 n ++ rest) = some (n, rest) := by
  have e1 := hexDigitVal_hexDigitChar (n := n / 4096 % 16) (Nat.mod_lt _ (by omega))
  have e2 := hexDigitVal_hexDigitChar (n := n / 256 % 16) (Nat.mod_lt _ (by omega))
  have e3 := hexDigitVal_hexDigitChar (n := n / 16 % 16) (Nat.mod_lt _ (by omega))
  have e4 := hexDigitVal_hexDigitChar (n := n % 16) (Nat.mod_lt _ (by omega))
  simp only [hex4, List.cons_append, List.nil_append, readHex4, e1, e2, e3, e4]
  have : n / 4096 % 16 * 4096 + n / 256 % 16 * 256 + n / 16 % 16 * 16 + n % 16 = n := by
    omega
  rw [this]

theorem digitChar_isDigit {m : Nat} (h : m < 10) :
    (Char.ofNat (48 + m)).isDigit = true := by
  interval_cases m <;> decide

theorem digitChar_val {m : Nat} (h : m < 10) :
    digitVal (Char.ofNat (48 + m)) = m := by
  interval_cases m <;> decide

theorem natDumpAux_acc (fuel : Nat) : ∀ (n : Nat) (ds : List Char),
    natDumpAux fuel n ds = natDumpAux fuel n [] ++ ds := by
  induction fuel with
  | zero => intro n ds; simp [natDumpAux]
  | succ fuel ih =>
      intro n ds
      simp only [natDumpAux]
      split
      · simp
      · rw [ih (n / 10) (Char.ofNat (48 + n % 10) :: ds),
          ih (n / 10) [Char.ofNat (48 + n % 10)]]
        simp

theorem natDumpAux_fuel (n : Nat) : ∀ (f1 f2 : Nat), n < f1 → n < f2 →
    ∀ ds, natDumpAux f1 n ds = natDumpAux f2 n ds := by
  induction n using Nat.strong_induction_on with
  | _ n ih =>
      intro f1 f2 h1 h2 ds
      match f1, f2 with
      | g1 + 1, g2 + 1 =>
          simp only [natDumpAux]
          split
          · rfl
          · rename_i hne
            exact ih (n / 10) (by omega) g1 g2 (by omega) (by omega) _

theorem natDumpAux_digits (fuel : Nat) : ∀ (n : Nat) (ds : List Char),
    (∀ c ∈ ds, c.isDigit = true) →
    ∀ c ∈ natDumpAux fuel n ds, c.isDigit = true := by
  induction fuel with
  | zero => intro n ds hds; exact hds
  | succ fuel ih =>
      intro n ds hds
      simp only [natDumpAux]
      split
      · intro c hc
        rcases List.mem_cons.mp hc with h | h
        · subst h; exact digitChar_isDigit (Nat.mod_lt _ (by omega))
        · exact hds c h
      · refine ih (n / 10) _ ?_
        intro c hc
        rcases List.mem_cons.mp hc with h | h
        · subst h; exact digitChar_isDigit (Nat.mod_lt _ (by omega))
        · exact hds c h

theorem natDump_digits (n : Nat) : ∀ c ∈ natDump n, c.isDigit = true :=
  natDumpAux_digits (n + 1) n [] (by simp)

theorem natDumpAux_ne_nil : ∀ (fuel n : Nat) (ds : List Char),
    natDumpAux (fuel + 1) n ds ≠ [] := by
  intro fuel
  induction fuel with
  | zero =>
      intro n ds
      simp only [natDumpAux]
      split
      · simp
      · simp [natDumpAux]
  | succ f ih =>
      intro n ds
      simp only [natDumpAux]
      split
      · simp
      · exact ih (n / 10) _

theorem natDump_ne_nil (n : Nat) : natDump n ≠ [] :=
  natDumpAux_ne_nil n n []

theorem natDump_readback (n : Nat) :
    (natDump n).foldl (fun a c => a * 10 + digitVal c) 0 = n := by
  induction n using Nat.strong_induction_on with
  | _ n ih =>
      unfold natDump
      simp only [natDumpAux]
      split
      · rename_i h0
        simp only [List.foldl_cons, List.foldl_nil]
        rw [digitChar_val (Nat.mod_lt _ (by omega))]
        omega
      · rename_i hne
        rw [natDumpAux_acc, List.foldl_append]
        rw [natDumpAux_fuel (n / 10) n (n / 10 + 1) (by omega) (by omega) []]
        have hrec : (natDump (n / 10)).foldl (fun a c => a * 10 + digitVal c) 0 =
            n / 10 := ih (n / 10) (by omega)
        unfold natDump at hrec
        rw [hrec]
        simp only [List.foldl_cons, List.foldl_nil]
        rw [digitChar_val (Nat.mod_lt _ (by omega))]
        omega

theorem parseNatAcc_append (ds : List Char) : ∀ (acc : Nat) (rest : List Char),
    (∀ c ∈ ds, c.isDigit = true) → nonDigitStart rest →
    parseNatAcc acc (ds ++ rest) =
      (ds.foldl (fun a c => a * 10 + digitVal c) acc, rest) := by
  induction ds with
  | nil =>
      intro acc rest _ hr
      match rest with
      | [] => rfl
      | c :: t =>
          simp only [List.nil_append, parseNatAcc, List.foldl_nil]
          rw [if_neg]
          simp only [nonDigitStart] at hr
          simp [hr]
  | cons d ds' ih =>
      intro acc rest hd hr
      simp only [List.cons_append, parseNatAcc, List.foldl_cons]
      rw [if_pos (hd d (List.mem_cons_self _ _))]
      exact ih _ rest (fun c hc => hd c (List.mem_cons_of_mem _ hc)) hr

theorem parseNat1_natDump (n : Nat) (rest : List Char) (hr : nonDigitStart rest) :
    parseNat1 (natDump n ++ rest) = some (n, rest) := by
  obtain ⟨d, ds, hd⟩ : ∃ d ds, natDump n = d :: ds := by
    match h : natDump n with
    | [] => exact absurd h (natDump_ne_nil n)
    | d :: ds => exact ⟨d, ds, rfl⟩
  have hdig : ∀ c ∈ natDump n, c.isDigit = true := natDump_digits n
  have hden : d.isDigit = true := hdig d (by rw [hd]; exact List.mem_cons_self _ _)
  rw [hd]
  simp only [List.cons_append, parseNat1]
  rw [if_pos hden]
  rw [parseNatAcc_append ds (digitVal d) rest
    (fun c hc => hdig c (by rw [hd]; exact List.mem_cons_of_mem _ hc)) hr]
  have := natDump_readback n
  rw [hd] at this
  simp only [List.foldl_cons] at this
  rw [show 0 * 10 + digitVal d = digitVal d by omega] at this
  rw [this]

theorem parseStringBody_u_step (f : Nat) (r : List Char) :
    parseStringBody (f + 1) ('\\' :: 'u' :: r) =
      (match readHex4 r with
       | none => none
       | some (n, r2) =>
           if 55296 ≤ n ∧ n < 56320 then
             match r2 with
             | '\\' :: 'u' :: r3 =>
                 match readHex4 r3 with
                 | none => none
                 | some (m, r4) =>
                     if 56320 ≤ m ∧ m < 57344 then
                       consStr (Char.ofNat (65536 + (n - 55296) * 1024 + (m - 56320)))
                         (parseStringBody f r4)
                     else none
             | _ => none
           else if 56320 ≤ n ∧ n < 57344 then none
           else consStr (Char.ofNat n) (parseStringBody f r2)) := rfl

theorem parseStringBody_unicode_bmp (f : Nat) (c : Char) (r r2 : List Char)
    (hget : readHex4 r = some (c.toNat, r2)) (hbmp : c.toNat < 65536) :
    parseStringBody (f + 1) ('\\' :: 'u' :: r) = consStr c (parseStringBody f r2) := by
  have hval := char_valid_ranges c
  rw [parseStringBody_u_step, hget]
  split
  · rename_i heq; exact absurd heq (by simp)
  · rename_i n r2x heq
    simp only [Option.some.injEq, Prod.mk.injEq] at heq
    obtain ⟨hn, rfl⟩ := heq
    rw [← hn]
    rw [if_neg (by omega), if_neg (by omega), Char.ofNat_toNat]

set_option maxHeartbeats 1000000 in
set_option maxRecDepth 4096 in
theorem parseStringBody_unicode_astral (f : Nat) (c : Char) (tail : List Char)
    (h : 65536 ≤ c.toNat) :
    parseStringBody (f + 1)
      ('\\' :: 'u' :: (hex4 (55296 + (c.toNat - 65536) / 1024) ++
        ('\\' :: 'u' :: (hex4 (56320 + (c.toNat - 65536) % 1024) ++ tail)))) =
      consStr c (parseStringBody f tail) := by
  have hval := char_valid_ranges c
  rw [parseStringBody_u_step,
    readHex4_hex4 (n := 55296 + (c.toNat - 65536) / 1024) (by omega)
      ('\\' :: 'u' :: (hex4 (56320 + (c.toNat - 65536) % 1024) ++ tail))]
  split
  · rename_i heq; exact absurd heq (by simp)
  · rename_i n r2x heq
    simp only [Option.some.injEq, Prod.mk.injEq] at heq
    obtain ⟨rfl, rfl⟩ := heq
    rw [if_pos (by omega)]
    split
    · rename_i r3 heq2
      simp only [List.cons.injEq] at heq2
      obtain ⟨-, -, rfl⟩ := heq2
      rw [readHex4_hex4 (n := 56320 + (c.toNat - 65536) % 1024) (by omega) tail]
      split
      · rename_i heq3; exact absurd heq3 (by simp)
      · rename_i m r4 heq3
        simp only [Option.some.injEq, Prod.mk.injEq] at heq3
        obtain ⟨rfl, rfl⟩ := heq3
        rw [if_pos (by omega)]
        rw [show 65536 + (55296 + (c.toNat - 65536) / 1024 - 55296) * 1024 +
            (56320 + (c.toNat - 65536) % 1024 - 56320) = c.toNat by omega]
        rw [Char.ofNat_toNat]
    · rename_i hx
      exact absurd rfl (hx (hex4 (56320 + (c.toNat - 65536) % 1024) ++ tail))

theorem parseStringBody_literal (f : Nat) (tail : List Char) (c : Char)
    (h1 : ¬ c = '"') (h2 : ¬ c = '\\') (h8 : ¬ c.toNat < 32) :
    parseStringBody (f + 1) (c :: tail) = consStr c (parseStringBody f tail) := by
  simp only [parseStringBody]
  rw [if_neg h1, if_neg h2, if_neg h8]

theorem parseStringBody_escapeChar (c : Char) (tail : List Char) (f : Nat) :
    parseStringBody (f + 1) (escapeChar c ++ tail) =
      consStr c (parseStringBody f tail) := by
  by_cases h1 : c = '"'
  · subst h1; rfl
  by_cases h2 : c = '\\'
  · subst h2; rfl
  by_cases h3 : c = '\n'
  · subst h3; rfl
  by_cases h4 : c = '\t'
  · subst h4; rfl
  by_cases h5 : c = '\r'
  · subst h5; rfl
  by_cases h6 : c.toNat = 8
  · simp only [escapeChar, if_neg h1, if_neg h2, if_neg h3, if_neg h4, if_neg h5,
      if_pos h6, List.cons_append, List.nil_append]
    rw [show parseStringBody (f + 1) ('\\' :: 'b' :: tail) =
        consStr (Char.ofNat 8) (parseStringBody f tail) from rfl]
    rw [← h6, Char.ofNat_toNat]
  by_cases h7 : c.toNat = 12
  · simp only [escapeChar, if_neg h1, if_neg h2, if_neg h3, if_neg h4, if_neg h5,
      if_neg h6, if_pos h7, List.cons_append, List.nil_append]
    rw [show parseStringBody (f + 1) ('\\' :: 'f' :: tail) =
        consStr (Char.ofNat 12) (parseStringBody f tail) from rfl]
    rw [← h7, Char.ofNat_toNat]
  by_cases h8 : c.toNat < 32
  · simp only [escapeChar, if_neg h1, if_neg h2, if_neg h3, if_neg h4, if_neg h5,
      if_neg h6, if_neg h7, if_pos h8, List.cons_append]
    exact parseStringBody_unicode_bmp f c _ tail
      (readHex4_hex4 (by omega) tail) (by omega)
  by_cases h9 : c.toNat ≤ 126
  · simp only [escapeChar, if_neg h1, if_neg h2, if_neg h3, if_neg h4, if_neg h5,
      if_neg h6, if_neg h7, if_neg h8, if_pos h9, List.cons_append, List.nil_append]
    exact parseStringBody_literal f tail c h1 h2 h8
  by_cases h10 : c.toNat < 65536
  · simp only [escapeChar, if_neg h1, if_neg h2, if_neg h3, if_neg h4, if_neg h5,
      if_neg h6, if_neg h7, if_neg h8, if_neg h9, if_pos h10, List.cons_append]
    exact parseStringBody_unicode_bmp f c _ tail
      (readHex4_hex4 (by omega) tail) h10
  · simp only [escapeChar, if_neg h1, if_neg h2, if_neg h3, if_neg h4, if_neg h5,
      if_neg h6, if_neg h7, if_neg h8, if_neg h9, if_neg h10, List.cons_append,
      List.append_assoc, List.nil_append]
    exact parseStringBody_unicode_astral f c tail (by omega)

theorem parseStringBody_escapeChars (cs : List Char) (tail : List Char) :
    ∀ f, cs.length + 1 ≤ f →
      parseStringBody f (escapeChars cs ++ ('"' :: tail)) = some (cs, tail) := by
  induction cs with
  | nil =>
      intro f hf
      match f, hf with
      | f + 1, _ => rfl
  | cons c cs' ih =>
      intro f hf
      match f, hf with
      | f' + 1, hf =>
          rw [escapeChars, List.append_assoc,
            parseStringBody_escapeChar c _ f',
            ih f' (by simpa using Nat.le_of_succ_le_succ hf)]
          rfl

set_option maxHeartbeats 1000000 in
theorem length_escapeChar (c : Char) : 1 ≤ (escapeChar c).length := by
  unfold escapeChar
  split_ifs <;>
    simp only [hex4, List.length_cons, List.length_append, List.length_nil,
      List.cons_append, List.nil_append] <;>
    omega

theorem length_escapeChars (cs : List Char) :
    cs.length ≤ (escapeChars cs).length := by
  induction cs with
  | nil => simp [escapeChars]
  | cons c cs' ih =>
      have := length_escapeChar c
      simp only [escapeChars, List.length_append, List.length_cons]
      omega

theorem isDigit_ne_dash {c : Char} (h : c.isDigit = true) : ¬ c = '-' := by
  intro heq
  rw [heq] at h
  exact absurd h (by decide)

theorem parseNumber_intDump (i : Int) (rest : List Char) (hr : nonDigitStart rest) :
    parseNumber (intDump i ++ rest) = some (i, rest) := by
  unfold intDump
  split
  · rename_i hneg
    simp only [List.cons_append, parseNumber]
    rw [if_pos trivial, parseNat1_natDump _ rest hr]
    simp only [Option.map_some']
    have : -(((-i).toNat : Nat) : Int) = i := by omega
    rw [this]
  · rename_i hpos
    obtain ⟨d, ds, hd⟩ : ∃ d ds, natDump i.toNat = d :: ds := by
      match h : natDump i.toNat with
      | [] => exact absurd h (natDump_ne_nil _)
      | d :: ds => exact ⟨d, ds, rfl⟩
    have hden : d.isDigit = true :=
      natDump_digits i.toNat d (by rw [hd]; exact List.mem_cons_self _ _)
    rw [hd]
    simp only [List.cons_append, parseNumber]
    rw [if_neg (isDigit_ne_dash hden)]
    have := parseNat1_natDump i.toNat rest hr
    rw [hd] at this
    simp only [List.cons_append] at this
    rw [this]
    simp only [Option.map_some']
    have : ((i.toNat : Nat) : Int) = i := by omega
    rw [this]

/-- Witness for C10: a call whose caller method is `"Save"` — only its
lower-cased form is in the utility set — is dropped from the view. -/

theorem isDigit_ne {c d : Char} (h : c.isDigit = true) (hd : d.isDigit = false) :
    ¬ c = d := by
  intro heq
  rw [heq] at h
  exact absurd (hd.symm.trans h) (by decide)

theorem not_ws_of_ne {c : Char} (h1 : ¬ c = ' ') (h2 : ¬ c = '\t')
    (h3 : ¬ c = '\n') (h4 : ¬ c = '\r') :
    (c == ' ' || c == '\t' || c == '\n' || c == '\r') = false := by
  simp [h1, h2, h3, h4]

theorem skipWs_space (cs : List Char) : skipWs (' ' :: cs) = skipWs cs := rfl

theorem skipWs_newline (cs : List Char) : skipWs ('\n' :: cs) = skipWs cs := rfl

theorem skipWs_replicate (n : Nat) (cs : List Char) :
    skipWs (List.replicate n ' ' ++ cs) = skipWs cs := by
  induction n with
  | zero => rfl
  | succ n ih =>
      rw [List.replicate_succ, List.cons_append, skipWs_space]
      exact ih

theorem skipWs_pad (k : Nat) (cs : List Char) :
    skipWs (pad k ++ cs) = skipWs cs :=
  skipWs_replicate (4 * k) cs

theorem skipWs_not_ws {c : Char}
    (h : (c == ' ' || c == '\t' || c == '\n' || c == '\r') = false)
    (cs : List Char) : skipWs (c :: cs) = c :: cs := by
  rw [skipWs, if_neg]
  simp [h]

theorem skipWs_idem (cs : List Char) : skipWs (skipWs cs) = skipWs cs := by
  induction cs with
  | nil => rfl
  | cons c cs ih =>
      by_cases h : (c == ' ' || c == '\t' || c == '\n' || c == '\r') = true
      · rw [show skipWs (c :: cs) = skipWs cs from by rw [skipWs, if_pos h]]
        exact ih
      · have hstep : skipWs (c :: cs) = c :: cs := by
          rw [skipWs, if_neg h]
        rw [hstep]
        exact hstep

theorem punct_skipWs (cs : List Char) : punct (skipWs cs) = punct cs := by
  unfold punct
  rw [skipWs_idem]

theorem punct_not_ws {c : Char}
    (h : (c == ' ' || c == '\t' || c == '\n' || c == '\r') = false)
    (cs : List Char) : punct (c :: cs) = some (c, cs) := by
  unfold punct
  rw [skipWs_not_ws h]

theorem punct_space (cs : List Char) : punct (' ' :: cs) = punct cs := by
  unfold punct
  rw [skipWs_space]

theorem punct_newline (cs : List Char) : punct ('\n' :: cs) = punct cs := by
  unfold punct
  rw [skipWs_newline]

theorem punct_pad (k : Nat) (cs : List Char) : punct (pad k ++ cs) = punct cs := by
  unfold punct
  rw [skipWs_pad]

theorem parseVal_space (f : Nat) (cs : List Char) :
    parseVal f (' ' :: cs) = parseVal f cs := by
  cases f with
  | zero => rfl
  | succ f => simp only [parseVal, punct_space]

theorem parseVal_newline (f : Nat) (cs : List Char) :
    parseVal f ('\n' :: cs) = parseVal f cs := by
  cases f with
  | zero => rfl
  | succ f => simp only [parseVal, punct_newline]

theorem parseVal_pad (f k : Nat) (cs : List Char) :
    parseVal f (pad k ++ cs) = parseVal f cs := by
  cases f with
  | zero => rfl
  | succ f => simp only [parseVal, punct_pad]

theorem parseItems_newline (f : Nat) (cs : List Char) :
    parseItems f ('\n' :: cs) = parseItems f cs := by
  cases f with
  | zero => rfl
  | succ f => simp only [parseItems, parseVal_newline]

theorem parseItems_pad (f k : Nat) (cs : List Char) :
    parseItems f (pad k ++ cs) = parseItems f cs := by
  cases f with
  | zero => rfl
  | succ f => simp only [parseItems, parseVal_pad]

theorem parseMembers_newline (f : Nat) (cs : List Char) :
    parseMembers f ('\n' :: cs) = parseMembers f cs := by
  cases f with
  | zero => rfl
  | succ f => simp only [parseMembers, punct_newline]

theorem parseMembers_pad (f k : Nat) (cs : List Char) :
    parseMembers f (pad k ++ cs) = parseMembers f cs := by
  cases f with
  | zero => rfl
  | succ f => simp only [parseMembers, punct_pad]

theorem intDump_head (i : Int) :
    ∃ c t, intDump i = c :: t ∧ (c = '-' ∨ c.isDigit = true) := by
  unfold intDump
  split
  · exact ⟨'-', natDump (-i).toNat, rfl, Or.inl rfl⟩
  · obtain ⟨d, ds, hd⟩ : ∃ d ds, natDump i.toNat = d :: ds := by
      match h : natDump i.toNat with
      | [] => exact absurd h (natDump_ne_nil _)
      | d :: ds => exact ⟨d, ds, rfl⟩
    refine ⟨d, ds, hd, Or.inr ?_⟩
    exact natDump_digits i.toNat d (by rw [hd]; exact List.mem_cons_self _ _)

theorem digit_not_ws {c : Char} (h : c.isDigit = true) :
    (c == ' ' || c == '\t' || c == '\n' || c == '\r') = false :=
  not_ws_of_ne (isDigit_ne h (by decide)) (isDigit_ne h (by decide))
    (isDigit_ne h (by decide)) (isDigit_ne h (by decide))

/-- The first character of any dumped value: it exists, is not whitespace,
and is none of the closing/separator punctuation the parser dispatches
on. -/
theorem dumpVal_head (lvl : Nat) (j : Json) :
    ∃ c t, dumpVal lvl j = c :: t ∧
      (c == ' ' || c == '\t' || c == '\n' || c == '\r') = false ∧
      ¬ c = ']' ∧ ¬ c = '}' := by
  cases j with
  | num i =>
      obtain ⟨c, t, hct, hc⟩ := intDump_head i
      refine ⟨c, t, hct, ?_, ?_, ?_⟩
      · rcases hc with rfl | hdig
        · decide
        · exact digit_not_ws hdig
      · rcases hc with rfl | hdig
        · decide
        · exact isDigit_ne hdig (by decide)
      · rcases hc with rfl | hdig
        · decide
        · exact isDigit_ne hdig (by decide)
  | null => exact ⟨'n', _, rfl, rfl, by decide, by decide⟩
  | bool b => cases b <;> exact ⟨_, _, rfl, rfl, by decide, by decide⟩
  | str s => exact ⟨'"', _, rfl, rfl, by decide, by decide⟩
  | arr items => cases items <;> exact ⟨'[', _, rfl, rfl, by decide, by decide⟩
  | obj fields => cases fields <;> exact ⟨'{', _, rfl, rfl, by decide, by decide⟩

theorem jsonFuel_pos (j : Json) : 1 ≤ jsonFuel j := by
  cases j <;> simp [jsonFuel]

theorem itemsFuel_pos (xs : JsonItems) : 1 ≤ itemsFuel xs := by
  cases xs <;> simp only [itemsFuel] <;> omega

theorem fieldsFuel_pos (fs : JsonFields) : 1 ≤ fieldsFuel fs := by
  cases fs <;> simp only [fieldsFuel] <;> omega

/-- Whitespace-skipped first character of a dumped value together with
the invariant pieces the container parsers need. -/
theorem punct_dumpVal (lvl : Nat) (x : Json) (mid : List Char) :
    ∃ c t, punct (dumpVal lvl x ++ mid) = some (c, t) ∧
      c :: t = dumpVal lvl x ++ mid ∧ ¬ c = ']' ∧ ¬ c = '}' := by
  obtain ⟨c, t, hct, hws, h1, h2⟩ := dumpVal_head lvl x
  refine ⟨c, t ++ mid, ?_, ?_, h1, h2⟩
  · rw [hct, List.cons_append, punct_not_ws hws]
  · rw [hct, List.cons_append]

mutual

/-- Round trip for a single value: parsing the indent-4 rendering of `j`
at any level, with enough fuel and a non-digit continuation, returns `j`
and the continuation. -/
theorem parseVal_dumpVal (j : Json) (lvl f : Nat) (rest : List Char)
    (hf : jsonFuel j ≤ f) (hr : nonDigitStart rest) :
    parseVal f (dumpVal lvl j ++ rest) = some (j, rest) := by
  obtain ⟨f', rfl⟩ : ∃ f', f = f' + 1 :=
    ⟨f - 1, by have := jsonFuel_pos j; omega⟩
  cases j with
  | null => rfl
  | bool b => cases b <;> rfl
  | num i =>
      obtain ⟨c, t, hct, hc⟩ := intDump_head i
      have hws : (c == ' ' || c == '\t' || c == '\n' || c == '\r') = false := by
        rcases hc with rfl | h
        · decide
        · exact digit_not_ws h
      have h1 : ¬ c = '{' := by
        rcases hc with rfl | h
        · decide
        · exact isDigit_ne h (by decide)
      have h2 : ¬ c = '[' := by
        rcases hc with rfl | h
        · decide
        · exact isDigit_ne h (by decide)
      have h3 : ¬ c = '"' := by
        rcases hc with rfl | h
        · decide
        · exact isDigit_ne h (by decide)
      have h4 : ¬ c = 'n' := by
        rcases hc with rfl | h
        · decide
        · exact isDigit_ne h (by decide)
      have h5 : ¬ c = 't' := by
        rcases hc with rfl | h
        · decide
        · exact isDigit_ne h (by decide)
      have h6 : ¬ c = 'f' := by
        rcases hc with rfl | h
        · decide
        · exact isDigit_ne h (by decide)
      show parseVal (f' + 1) (intDump i ++ rest) = _
      rw [hct, List.cons_append]
      simp only [parseVal]
      rw [punct_not_ws hws]
      simp only [Option.some_bind]
      rw [if_neg h1, if_neg h2, if_neg h3, if_neg h4, if_neg h5, if_neg h6]
      rw [← List.cons_append, ← hct, parseNumber_intDump i rest hr]
      rfl
  | str s =>
      show parseVal (f' + 1) (escapeString s ++ rest) = _
      rw [show escapeString s ++ rest =
          '"' :: (escapeChars s.data ++ ('"' :: rest)) from by
        simp [escapeString]]
      simp only [parseVal]
      rw [punct_not_ws (by decide)]
      simp only [Option.some_bind, reduceIte]
      rw [parseStringBody_escapeChars s.data rest _ (by
        simp only [List.length_append, List.length_cons]
        have := length_escapeChars s.data
        omega)]
      rfl
  | arr items =>
      cases items with
      | nil => rfl
      | cons x xs =>
          have hfu : itemsFuel (JsonItems.cons x xs) ≤ f' := by
            simp only [jsonFuel] at hf
            omega
          show parseVal (f' + 1)
            (('[' :: '\n' ::
              (dumpItems (lvl + 1) (JsonItems.cons x xs) ++
                ('\n' :: (pad lvl ++ [']'])))) ++ rest) = _
          rw [show ('[' :: '\n' ::
              (dumpItems (lvl + 1) (JsonItems.cons x xs) ++
                ('\n' :: (pad lvl ++ [']'])))) ++ rest =
              '[' :: '\n' :: (pad (lvl + 1) ++ (dumpVal (lvl + 1) x ++
                (dumpItemsRest (lvl + 1) xs ++
                  ('\n' :: (pad lvl ++ (']' :: rest)))))) from by
            simp [dumpItems, List.append_assoc]]
          simp only [parseVal]
          rw [punct_not_ws (by decide)]
          simp only [Option.some_bind, reduceIte]
          rw [punct_newline, punct_pad]
          obtain ⟨c, t, hpunct, hcons, hne1, hne2⟩ :=
            punct_dumpVal (lvl + 1) x
              (dumpItemsRest (lvl + 1) xs ++ ('\n' :: (pad lvl ++ (']' :: rest))))
          rw [hpunct]
          simp only [Option.some_bind]
          rw [if_neg hne1, hcons]
          rw [← parseItems_pad f' (lvl + 1)]
          rw [parseItems_dump x xs (lvl + 1) f'
            ('\n' :: (pad lvl ++ (']' :: rest))) rest hfu
            (by rw [punct_newline, punct_pad, punct_not_ws (by decide)]) rfl]
          rfl
  | obj fields =>
      cases fields with
      | nil => rfl
      | cons k v fs =>
          have hfu : fieldsFuel (JsonFields.cons k v fs) ≤ f' := by
            simp only [jsonFuel] at hf
            omega
          show parseVal (f' + 1)
            (('{' :: '\n' ::
              (dumpFields (lvl + 1) (JsonFields.cons k v fs) ++
                ('\n' :: (pad lvl ++ ['}'])))) ++ rest) = _
          rw [show ('{' :: '\n' ::
              (dumpFields (lvl + 1) (JsonFields.cons k v fs) ++
                ('\n' :: (pad lvl ++ ['}'])))) ++ rest =
              '{' :: '\n' :: (pad (lvl + 1) ++ ('"' :: (escapeChars k.data ++
                ('"' :: (':' :: ' ' :: (dumpVal (lvl + 1) v ++
                  (dumpFieldsRest (lvl + 1) fs ++
                    ('\n' :: (pad lvl ++ ('}' :: rest)))))))))) from by
            simp [dumpFields, escapeString, List.append_assoc]]
          simp only [parseVal]
          rw [punct_not_ws (by decide)]
          simp only [Option.some_bind, reduceIte]
          rw [punct_newline, punct_pad, punct_not_ws (by decide)]
          simp only [Option.some_bind, reduceIte]
          rw [← parseMembers_pad f' (lvl + 1)]
          rw [parseMembers_dump k v fs (lvl + 1) f'
            ('\n' :: (pad lvl ++ ('}' :: rest))) rest hfu
            (by rw [punct_newline, punct_pad, punct_not_ws (by decide)]) rfl]
          rfl

termination_by f
decreasing_by all_goals simp_wf; omega

/-- Round trip for a non-empty run of array items followed by the
closing bracket. -/
theorem parseItems_dump (x : Json) (xs : JsonItems) (li f : Nat)
    (close rest : List Char) (hf : itemsFuel (JsonItems.cons x xs) ≤ f)
    (hclose : punct close = some (']', rest)) (hnd : nonDigitStart close) :
    parseItems f (pad li ++ (dumpVal li x ++ (dumpItemsRest li xs ++ close))) =
      some (JsonItems.cons x xs, rest) := by
  obtain ⟨f', rfl⟩ : ∃ f', f = f' + 1 :=
    ⟨f - 1, by simp only [itemsFuel] at hf; omega⟩
  have hfx : jsonFuel x ≤ f' := by
    simp only [itemsFuel] at hf
    have := itemsFuel_pos xs
    omega
  simp only [parseItems]
  rw [parseVal_pad]
  cases xs with
  | nil =>
      rw [show dumpItemsRest li JsonItems.nil = [] from rfl, List.nil_append]
      rw [parseVal_dumpVal x li f' close hfx hnd]
      simp only [Option.some_bind]
      rw [hclose]
      simp only [Option.some_bind]
      rfl
  | cons y ys =>
      have hfr : itemsFuel (JsonItems.cons y ys) ≤ f' := by
        simp only [itemsFuel] at hf ⊢
        have := jsonFuel_pos x
        omega
      rw [show dumpItemsRest li (JsonItems.cons y ys) =
          ',' :: '\n' :: (pad li ++ (dumpVal li y ++ dumpItemsRest li ys)) from rfl]
      rw [show (',' :: '\n' ::
          (pad li ++ (dumpVal li y ++ dumpItemsRest li ys))) ++ close =
          ',' :: '\n' ::
            (pad li ++ (dumpVal li y ++ (dumpItemsRest li ys ++ close))) from by
        simp [List.append_assoc]]
      rw [parseVal_dumpVal x li f' _ hfx (by exact rfl)]
      simp only [Option.some_bind]
      rw [punct_not_ws (by decide)]
      simp only [Option.some_bind]
      rw [if_pos trivial]
      rw [parseItems_newline]
      rw [parseItems_dump y ys li f' close rest hfr hclose hnd]
      rfl

termination_by f
decreasing_by all_goals simp_wf; omega

/-- Round trip for a non-empty run of object fields followed by the
closing brace. -/
theorem parseMembers_dump (k : String) (v : Json) (fs : JsonFields)
    (li f : Nat) (close rest : List Char)
    (hf : fieldsFuel (JsonFields.cons k v fs) ≤ f)
    (hclose : punct close = some ('}', rest)) (hnd : nonDigitStart close) :
    parseMembers f (pad li ++ ('"' :: (escapeChars k.data ++
      ('"' :: (':' :: ' ' :: (dumpVal li v ++ (dumpFieldsRest li fs ++ close))))))) =
      some (JsonFields.cons k v fs, rest) := by
  obtain ⟨f', rfl⟩ : ∃ f', f = f' + 1 :=
    ⟨f - 1, by simp only [fieldsFuel] at hf; omega⟩
  have hfx : jsonFuel v ≤ f' := by
    simp only [fieldsFuel] at hf
    have := fieldsFuel_pos fs
    omega
  simp only [parseMembers]
  rw [punct_pad, punct_not_ws (by decide)]
  simp only [Option.some_bind]
  rw [if_pos trivial]
  rw [parseStringBody_escapeChars k.data _ _ (by
    simp only [List.length_append, List.length_cons]
    have := length_escapeChars k.data
    omega)]
  simp only [Option.some_bind]
  rw [punct_not_ws (by decide)]
  simp only [Option.some_bind]
  rw [if_pos trivial]
  rw [parseVal_space]
  cases fs with
  | nil =>
      rw [show dumpFieldsRest li JsonFields.nil = [] from rfl, List.nil_append]
      rw [parseVal_dumpVal v li f' close hfx hnd]
      simp only [Option.some_bind]
      rw [hclose]
      simp only [Option.some_bind]
      rfl
  | cons k2 v2 fs2 =>
      have hfr : fieldsFuel (JsonFields.cons k2 v2 fs2) ≤ f' := by
        simp only [fieldsFuel] at hf ⊢
        have := jsonFuel_pos v
        omega
      rw [show dumpFieldsRest li (JsonFields.cons k2 v2 fs2) =
          ',' :: '\n' :: (pad li ++ (escapeString k2 ++
            (':' :: ' ' :: (dumpVal li v2 ++ dumpFieldsRest li fs2)))) from rfl]
      rw [show (',' :: '\n' :: (pad li ++ (escapeString k2 ++
          (':' :: ' ' :: (dumpVal li v2 ++ dumpFieldsRest li fs2))))) ++ close =
          ',' :: '\n' :: (pad li ++ ('"' :: (escapeChars k2.data ++
            ('"' :: (':' :: ' ' :: (dumpVal li v2 ++
              (dumpFieldsRest li fs2 ++ close))))))) from by
        simp [escapeString, List.append_assoc]]
      rw [parseVal_dumpVal v li f' _ hfx (by exact rfl)]
      simp only [Option.some_bind]
      rw [punct_not_ws (by decide)]
      simp only [Option.some_bind]
      rw [if_pos trivial]
      rw [parseMembers_newline]
      rw [parseMembers_dump k2 v2 fs2 li f' close rest hfr hclose hnd]
      rfl
termination_by f
decreasing_by all_goals simp_wf; omega

end

mutual

/-- The fuel budget of a value never exceeds the length of its rendering
plus one, so `loads` always runs the parser with enough fuel. -/
theorem jsonFuel_le_length : (lvl : Nat) → (j : Json) →
    jsonFuel j ≤ (dumpVal lvl j).length + 1
  | _, .null => by simp only [jsonFuel]; omega
  | _, .bool true => by simp only [jsonFuel]; omega
  | _, .bool false => by simp only [jsonFuel]; omega
  | _, .num _ => by simp only [jsonFuel]; omega
  | _, .str _ => by simp only [jsonFuel]; omega
  | lvl, .arr .nil => by
      simp only [jsonFuel, itemsFuel]
      rw [show dumpVal lvl (Json.arr JsonItems.nil) = ['[', ']'] from rfl]
      simp
  | lvl, .arr (.cons x xs) => by
      have h1 := jsonFuel_le_length (lvl + 1) x
      have h2 := itemsRestFuel_le_length (lvl + 1) xs
      simp only [jsonFuel, itemsFuel]
      rw [show dumpVal lvl (Json.arr (JsonItems.cons x xs)) =
          '[' :: '\n' :: (dumpItems (lvl + 1) (JsonItems.cons x xs) ++
            ('\n' :: (pad lvl ++ [']']))) from rfl]
      rw [show dumpItems (lvl + 1) (JsonItems.cons x xs) =
          pad (lvl + 1) ++ (dumpVal (lvl + 1) x ++
            dumpItemsRest (lvl + 1) xs) from rfl]
      simp only [List.length_cons, List.length_append]
      omega
  | lvl, .obj .nil => by
      simp only [jsonFuel, fieldsFuel]
      rw [show dumpVal lvl (Json.obj JsonFields.nil) = ['\x7b', '\x7d'] from rfl]
      simp
  | lvl, .obj (.cons k v fs) => by
      have h1 := jsonFuel_le_length (lvl + 1) v
      have h2 := fieldsRestFuel_le_length (lvl + 1) fs
      simp only [jsonFuel, fieldsFuel]
      rw [show dumpVal lvl (Json.obj (JsonFields.cons k v fs)) =
          '\x7b' :: '\n' :: (dumpFields (lvl + 1) (JsonFields.cons k v fs) ++
            ('\n' :: (pad lvl ++ ['\x7d']))) from rfl]
      rw [show dumpFields (lvl + 1) (JsonFields.cons k v fs) =
          pad (lvl + 1) ++ (escapeString k ++ (':' :: ' ' ::
            (dumpVal (lvl + 1) v ++ dumpFieldsRest (lvl + 1) fs))) from rfl]
      simp only [List.length_cons, List.length_append]
      omega

/-- Companion bound for the tail of an item list. -/
theorem itemsRestFuel_le_length : (lvl : Nat) → (xs : JsonItems) →
    itemsFuel xs ≤ (dumpItemsRest lvl xs).length + 1
  | _, .nil => by simp only [itemsFuel, dumpItemsRest]; simp
  | lvl, .cons x xs => by
      have h1 := jsonFuel_le_length lvl x
      have h2 := itemsRestFuel_le_length lvl xs
      simp only [itemsFuel]
      rw [show dumpItemsRest lvl (JsonItems.cons x xs) =
          ',' :: '\n' :: (pad lvl ++ (dumpVal lvl x ++
            dumpItemsRest lvl xs)) from rfl]
      simp only [List.length_cons, List.length_append]
      omega

/-- Companion bound for the tail of a field list. -/
theorem fieldsRestFuel_le_length : (lvl : Nat) → (fs : JsonFields) →
    fieldsFuel fs ≤ (dumpFieldsRest lvl fs).length + 1
  | _, .nil => by simp only [fieldsFuel, dumpFieldsRest]; simp
  | lvl, .cons k v fs => by
      have h1 := jsonFuel_le_length lvl v
      have h2 := fieldsRestFuel_le_length lvl fs
      simp only [fieldsFuel]
      rw [show dumpFieldsRest lvl (JsonFields.cons k v fs) =
          ',' :: '\n' :: (pad lvl ++ (escapeString k ++ (':' :: ' ' ::
            (dumpVal lvl v ++ dumpFieldsRest lvl fs)))) from rfl]
      simp only [List.length_cons, List.length_append]
      omega

end

/-- Full round trip of the JSON model: `json.load` on the exact characters
`json.dump(value, f, indent=4)` wrote recovers the value. -/
theorem loads_dumpVal (j : Json) : loads (dumpVal 0 j) = some j := by
  have h := parseVal_dumpVal j 0 ((dumpVal 0 j).length + 1) []
    (by have := jsonFuel_le_length 0 j; omega) True.intro
  rw [List.append_nil] at h
  simp only [loads, h]
  rfl

theorem str_injective : Function.Injective Json.str := by
  intro a b h
  injection h

theorem itemsOfList_injective : Function.Injective itemsOfList := by
  intro a b h
  induction a generalizing b with
  | nil => cases b with
    | nil => rfl
    | cons y ys => exact absurd h (by simp [itemsOfList])
  | cons x xs ih => cases b with
    | nil => exact absurd h (by simp [itemsOfList])
    | cons y ys =>
        simp only [itemsOfList] at h
        injection h with h1 h2
        rw [h1, ih h2]

theorem methodToJson_injective : Function.Injective methodToJson := by
  intro m m' h
  cases m; cases m'
  simp only [methodToJson, Json.obj.injEq, JsonFields.cons.injEq,
    Json.str.injEq, true_and, and_true] at h
  obtain ⟨h1, h2, h3, h4⟩ := h
  simp_all

theorem callToJson_injective : Function.Injective callToJson := by
  intro c c' h
  cases c; cases c'
  simp only [callToJson, Json.obj.injEq, JsonFields.cons.injEq,
    Json.str.injEq, Json.num.injEq, Int.natCast_inj, true_and, and_true] at h
  obtain ⟨h1, h2, h3, h4, h5⟩ := h
  simp_all

theorem recordToJson_injective : Function.Injective recordToJson := by
  intro r r' h
  cases r; cases r'
  simp only [recordToJson, Json.obj.injEq, JsonFields.cons.injEq,
    Json.arr.injEq, Json.str.injEq, true_and, and_true] at h
  obtain ⟨h1, h2, h3, h4, h5⟩ := h
  have e1 := List.map_injective_iff.mpr str_injective (itemsOfList_injective h1)
  have e2 := List.map_injective_iff.mpr methodToJson_injective (itemsOfList_injective h2)
  have e3 := List.map_injective_iff.mpr str_injective (itemsOfList_injective h3)
  have e4 := List.map_injective_iff.mpr callToJson_injective (itemsOfList_injective h4)
  simp_all

theorem storeFields_injective (s s' : Store) (h : storeFields s = storeFields s') :
    s = s' := by
  induction s generalizing s' with
  | nil => cases s' with
    | nil => rfl
    | cons p rest => exact absurd h (by cases p; simp [storeFields])
  | cons p rest ih => cases s' with
    | nil => exact absurd h (by cases p; simp [storeFields])
    | cons q rest' =>
        cases p; cases q
        simp only [storeFields] at h
        injection h with h1 h2 h3
        rw [h1, recordToJson_injective h2, ih rest' h3]

/-- Distinct stores have distinct snapshots: the serialization loses
nothing. -/
theorem storeToJson_injective : Function.Injective storeToJson := by
  intro s s' h
  injection h with h1
  exact storeFields_injective s s' h1

/-- C6: for every index store persisted with `save_to_file`
(`json.dump(data, f, indent=4)`), `load_from_file` on the written file
returns exactly the serialized snapshot value with no warning or error
logged, and the snapshot determines the store uniquely, so the round trip
reproduces the original store's record fields and values for every
path. -/
theorem claim6_round_trip (store : Store) (path : String)
    (_hkeys : (store.map Prod.fst).Nodup) :
    loadFromFile path (FileState.present (saveContents store)) =
      ⟨storeToJson store, []⟩ ∧
    Function.Injective storeToJson := by
  refine ⟨?_, storeToJson_injective⟩
  simp only [loadFromFile, saveContents, loads_dumpVal]

theorem claim6_round_trip_witness :
    ((sampleStore.map Prod.fst).Nodup) ∧
    (loadFromFile "code_index/index.json"
        (FileState.present (saveContents sampleStore)) =
      ⟨storeToJson sampleStore, []⟩ ∧
    Function.Injective storeToJson) :=
  ⟨by decide, claim6_round_trip sampleStore "code_index/index.json" (by decide)⟩

/-- C9 counterexample: on a malformed (non-JSON) snapshot `load_from_file`
does return the empty index and does not raise, but it logs at error
level, not warning — no warning is emitted at all (`config_utils.py`
lines 27–29 use `logging.error`; only the missing-file branch at line 19
warns). -/
theorem claim9_counterexample :
    (loadFromFile "code_index/index.json"
      (FileState.present ['\x7b'])).value = Json.obj JsonFields.nil ∧
    (loadFromFile "code_index/index.json"
      (FileState.present ['\x7b'])).logs.map Prod.fst = [LogLevel.error] ∧
    LogLevel.warning ∉
      ((loadFromFile "code_index/index.json"
        (FileState.present ['\x7b'])).logs.map Prod.fst) := by
  refine ⟨rfl, rfl, ?_⟩
  intro hmem
  rw [show (loadFromFile "code_index/index.json"
      (FileState.present ['\x7b'])).logs.map Prod.fst = [LogLevel.error] from rfl] at hmem
  simp at hmem

/-- C9 amended: for every snapshot path, a missing snapshot degrades to
the empty index with exactly one log line, at warning level; a malformed
(unparseable) snapshot degrades to the empty index with exactly one log
line, at error level (so no warning); neither branch raises — both return
a result. -/
theorem claim9_amended (path : String) (contents : List Char)
    (hbad : loads contents = none) :
    loadFromFile path FileState.missing =
      ⟨Json.obj JsonFields.nil,
        [(LogLevel.warning,
          "File " ++ path ++ " not found. Creating an empty index file.")]⟩ ∧
    loadFromFile path (FileState.present contents) =
      ⟨Json.obj JsonFields.nil,
        [(LogLevel.error, "Error loading file " ++ path)]⟩ := by
  refine ⟨rfl, ?_⟩
  simp [loadFromFile, hbad]

theorem claim9_amended_witness :
    loads ['\x7b'] = none ∧
    (loadFromFile "idx.json" FileState.missing =
      ⟨Json.obj JsonFields.nil,
        [(LogLevel.warning,
          "File idx.json not found. Creating an empty index file.")]⟩ ∧
    loadFromFile "idx.json" (FileState.present ['\x7b']) =
      ⟨Json.obj JsonFields.nil,
        [(LogLevel.error, "Error loading file idx.json")]⟩) :=
  ⟨rfl, claim9_amended "idx.json" ['\x7b'] rfl⟩

theorem claim10_caller_filter_witness :
    utilityMethods.contains (pyLower "Save") = true ∧
    retainCall ⟨"A", "Save", "B", "doWork", 1⟩ = false ∧
    (⟨"A", "Save", "B", "doWork", 1⟩ : CallInfo) ∉ retainedCalls
      [("F.java", ⟨[], [], [], [⟨"A", "Save", "B", "doWork", 1⟩], ""⟩)] :=
  ⟨by decide,
    claim10_caller_filter
      [("F.java", ⟨[], [], [], [⟨"A", "Save", "B", "doWork", 1⟩], ""⟩)]
      ⟨"A", "Save", "B", "doWork", 1⟩ (by decide)⟩

end ImpactAnalysis
